import Mathlib

set_option maxRecDepth 8000
set_option maxHeartbeats 2000000

/-!
Verification of the htmlgen node-tree / rendering engine against its
natural-language specification.  Go source files are shallowly embedded:
Go strings are lists of characters (all relevant data is ASCII, where Go
byte indexing and character indexing agree), Go maps are association
lists carrying one arbitrary iteration order, the fallible `io.Writer`
is a deterministic sink that either accepts a whole `WriteString` call
or rejects it, and Go run-time faults (nil dereference) are `Option`
failures.
-/

namespace Htmlgen

/-- Go strings, byte-for-byte, as lists of characters. -/
abbrev Str := List Char

/-! ### Variable parser (text_tag_var.go) -/

/-- Character class `[a-zA-Z_]` of the regular expression
`^(\$|[a-zA-Z_]+[a-zA-Z0-9_]*)` in text_tag_var.go. -/
def isVarStartChar (c : Char) : Bool :=
  ('a' ≤ c && c ≤ 'z') || ('A' ≤ c && c ≤ 'Z') || c == '_'

/-- Character class `[a-zA-Z0-9_]`. -/
def isVarChar (c : Char) : Bool :=
  isVarStartChar c || ('0' ≤ c && c ≤ '9')

/-- Length of the longest prefix of the list whose characters satisfy `p`. -/
def runLen (p : Char → Bool) : Str → Nat
  | [] => 0
  | c :: cs => if p c then runLen p cs + 1 else 0

/-- Length of the text matched by `reVar.FindString` at the start of `s`:
the Go regexp `^(\$|[a-zA-Z_]+[a-zA-Z0-9_]*)` matches either a literal
`$`, or a maximal identifier run (a `[a-zA-Z_]` character followed by the
maximal run of `[a-zA-Z0-9_]` characters, both quantifiers being greedy).
`FindString` returns the empty string when there is no match (length 0). -/
def reVarLen : Str → Nat
  | [] => 0
  | c :: cs =>
    if c == '$' then 1
    else if isVarStartChar c then runLen isVarChar cs + 1
    else 0

/-- `strings.IndexRune(s, '$')`: index of the first `$`, or none (Go: -1). -/
def indexDollar : Str → Option Nat
  | [] => none
  | c :: cs => if c == '$' then some 0 else (indexDollar cs).map (· + 1)

/-- A variable-reference span: `startOffset` is the position of the `$`
delimiter, `length` the full span length including the delimiter
(text_tag_var.go, type Var). -/
structure Var where
  startOffset : Nat
  length : Nat
  deriving DecidableEq

/-- The scanning loop of `parseVars` (text_tag_var.go).  The Go loop runs
while `offset < len(text)`; each iteration consumes at least one character
of the remaining text `cs`, so `fuel` bounds the number of iterations and
any `fuel > cs.length` is sufficient. -/
def parseVarsLoop : Nat → Str → Nat → List Var
  | 0, _, _ => []
  | fuel + 1, cs, offset =>
    match indexDollar cs with
    | none => []
    | some index =>
      let varLen := 1 + reVarLen (cs.drop (index + 1))
      ⟨offset + index, varLen⟩ ::
        parseVarsLoop fuel (cs.drop (index + varLen)) (offset + index + varLen)

/-- `parseVars` (text_tag_var.go): scan the text left to right, producing
the ordered list of variable-reference spans. -/
def parseVars (text : Str) : List Var :=
  parseVarsLoop (text.length + 1) text 0

/-- Well-formedness of a span list over `text`, starting no earlier than
`lo`: each span has positive length, starts at a `$`, stays within the
text, and the spans are consecutive and disjoint. -/
def spanChain (text : Str) : Nat → List Var → Prop
  | _, [] => True
  | lo, v :: vs =>
    lo ≤ v.startOffset ∧ 1 ≤ v.length ∧ text.get? v.startOffset = some '$' ∧
      v.startOffset + v.length ≤ text.length ∧ spanChain text (v.startOffset + v.length) vs

theorem indexDollar_get {cs : Str} {i : Nat} (h : indexDollar cs = some i) :
    cs.get? i = some '$' := by
  induction cs generalizing i with
  | nil => simp [indexDollar] at h
  | cons c cs ih =>
    by_cases hc : c == '$'
    · simp [indexDollar, hc] at h
      subst h
      simpa using (by simpa using hc : c = '$')
    · simp [indexDollar, hc] at h
      obtain ⟨j, hj, rfl⟩ := h
      simpa using ih hj

theorem indexDollar_lt {cs : Str} {i : Nat} (h : indexDollar cs = some i) :
    i < cs.length := by
  have := indexDollar_get h
  exact List.get?_eq_some.mp this |>.1

theorem runLen_le (p : Char → Bool) (cs : Str) : runLen p cs ≤ cs.length := by
  induction cs with
  | nil => simp [runLen]
  | cons c cs ih =>
    simp only [runLen]
    split
    · simpa using ih
    · simp

theorem reVarLen_le (cs : Str) : reVarLen cs ≤ cs.length := by
  cases cs with
  | nil => simp [reVarLen]
  | cons c cs =>
    simp only [reVarLen]
    split
    · simp
    · split
      · simpa using runLen_le isVarChar cs
      · simp

/-- Main invariant of the parsing loop: the spans produced for the suffix
`text.drop offset` form a well-formed chain starting at `offset`. -/
theorem parseVarsLoop_chain (text : Str) :
    ∀ fuel offset, spanChain text offset (parseVarsLoop fuel (text.drop offset) offset) := by
  intro fuel
  induction fuel with
  | zero => intro offset; simp [parseVarsLoop, spanChain]
  | succ fuel ih =>
    intro offset
    simp only [parseVarsLoop]
    cases hidx : indexDollar (text.drop offset) with
    | none => simp [spanChain]
    | some index =>
      have hget : (text.drop offset).get? index = some '$' := indexDollar_get hidx
      have hlt : index < (text.drop offset).length := indexDollar_lt hidx
      have hlen : (text.drop offset).length = text.length - offset := List.length_drop ..
      have habs : text.get? (offset + index) = some '$' := by
        rw [← List.get?_drop]
        exact hget
      have hm : reVarLen ((text.drop offset).drop (index + 1)) ≤
          text.length - offset - (index + 1) := by
        calc reVarLen ((text.drop offset).drop (index + 1))
            ≤ ((text.drop offset).drop (index + 1)).length := reVarLen_le _
          _ = (text.drop offset).length - (index + 1) := List.length_drop ..
          _ = text.length - offset - (index + 1) := by rw [hlen]
      rw [hlen] at hlt
      simp only [spanChain]
      have hdrop : (text.drop offset).drop (index + (1 + reVarLen ((text.drop offset).drop (index + 1)))) =
          text.drop (offset + index + (1 + reVarLen ((text.drop offset).drop (index + 1)))) := by
        rw [List.drop_drop]
        congr 1
        omega
      refine ⟨Nat.le_add_right _ _, by omega, habs, by omega, ?_⟩
      have := ih (offset + index + (1 + reVarLen ((text.drop offset).drop (index + 1))))
      rw [← hdrop] at this
      exact this

theorem parseVars_chain (text : Str) : spanChain text 0 (parseVars text) := by
  have := parseVarsLoop_chain text (text.length + 1) 0
  simpa [parseVars] using this

theorem spanChain_lo_le {text : Str} {lo : Nat} {vs : List Var} (h : spanChain text lo vs) :
    ∀ v ∈ vs, lo ≤ v.startOffset := by
  induction vs generalizing lo with
  | nil => simp
  | cons v vs ih =>
    obtain ⟨h1, h2, _, _, h5⟩ := h
    intro w hw
    rcases List.mem_cons.mp hw with rfl | hw
    · exact h1
    · have := ih h5 w hw
      omega

theorem spanChain_mem {text : Str} {lo : Nat} {vs : List Var} (h : spanChain text lo vs) :
    ∀ v ∈ vs, 1 ≤ v.length ∧ text.get? v.startOffset = some '$' ∧
      v.startOffset + v.length ≤ text.length := by
  induction vs generalizing lo with
  | nil => simp
  | cons v vs ih =>
    obtain ⟨_, h2, h3, h4, h5⟩ := h
    intro w hw
    rcases List.mem_cons.mp hw with rfl | hw
    · exact ⟨h2, h3, h4⟩
    · exact ih h5 w hw

theorem spanChain_pairwise {text : Str} {lo : Nat} {vs : List Var} (h : spanChain text lo vs) :
    vs.Pairwise (fun a b => a.startOffset + a.length ≤ b.startOffset) := by
  induction vs generalizing lo with
  | nil => simp
  | cons v vs ih =>
    obtain ⟨_, _, _, _, h5⟩ := h
    exact List.Pairwise.cons (fun b hb => spanChain_lo_le h5 b hb) (ih h5)

theorem indexDollar_of_not_mem {cs : Str} (h : '$' ∉ cs) : indexDollar cs = none := by
  induction cs with
  | nil => rfl
  | cons c cs ih =>
    simp only [List.mem_cons, not_or] at h
    have hc : (c == '$') = false := by
      simpa [beq_iff_eq] using fun hh => h.1 (by simp [hh])
    simp [indexDollar, hc, ih h.2]

/-- C3 (part): a text without the delimiter parses to the empty span list. -/
theorem parseVars_no_dollar {text : Str} (h : '$' ∉ text) : parseVars text = [] := by
  simp [parseVars, parseVarsLoop, indexDollar_of_not_mem h]

/-- C3: for every input text containing no `$`, `parseVars` returns the
empty span list; `parseVars "01234 $worl"` is exactly the one span
`{startOffset 6, length 5}`, and `parseVars "01234 $worl $ $$ $"` is exactly
the four spans `{6,5}, {12,1}, {14,2}, {17,1}` in that order. -/
theorem claim_C3_parseVars :
    (∀ text : Str, '$' ∉ text → parseVars text = []) ∧
    parseVars ("01234 $worl".toList) = [⟨6, 5⟩] ∧
    parseVars ("01234 $worl $ $$ $".toList) = [⟨6, 5⟩, ⟨12, 1⟩, ⟨14, 2⟩, ⟨17, 1⟩] :=
  ⟨fun _ h => parseVars_no_dollar h, by decide, by decide⟩

/-- Witness for C3: the universally quantified part applied at the concrete
delimiter-free text "hello". -/
theorem claim_C3_parseVars_witness : parseVars ("hello".toList) = [] :=
  claim_C3_parseVars.1 ("hello".toList) (by decide)

/-- C10: every span produced by `parseVars` is well-formed: positive
length, `startOffset` at a `$` character of the text, end within the text,
and the spans pairwise disjoint and strictly increasing in `startOffset`
(so the slicing done by `TextTagVar.write` stays in range). -/
theorem claim_C10_spans_wellformed (text : Str) :
    spanChain text 0 (parseVars text) ∧
    (∀ v ∈ parseVars text, 1 ≤ v.length ∧ text.get? v.startOffset = some '$' ∧
      v.startOffset + v.length ≤ text.length) ∧
    (parseVars text).Pairwise (fun a b => a.startOffset + a.length ≤ b.startOffset) ∧
    (parseVars text).Pairwise (fun a b => a.startOffset < b.startOffset) := by
  have h := parseVars_chain text
  have hm := spanChain_mem h
  have hp := spanChain_pairwise h
  refine ⟨h, hm, hp, ?_⟩
  refine hp.imp_of_mem ?_
  intro a b ha _ hab
  have := (hm a ha).1
  omega

/-- Witness for C10: the membership part applied at a concrete input. -/
theorem claim_C10_spans_wellformed_witness :
    parseVars ("x $y".toList) = [⟨2, 2⟩] ∧
    1 ≤ (2 : Nat) ∧ ("x $y".toList).get? 2 = some '$' := by
  refine ⟨by decide, ?_⟩
  have h := (claim_C10_spans_wellformed ("x $y".toList)).2.1 ⟨2, 2⟩ (by decide)
  exact ⟨h.1, h.2.1⟩

/-! ### The output sink (io.Writer) -/

/-- State of the modelled output sink: how many `WriteString` calls were
made so far, and the bytes the sink has accepted. -/
structure WState where
  calls : Nat
  out : Str
  deriving DecidableEq

/-- A deterministic sink: call number `i` succeeds iff `ok i`.  A
successful `io.WriteString` accepts the whole string and reports its
length; a failing call accepts nothing and reports 0 bytes. -/
def wstring (ok : Nat → Bool) (s : WState) (str : Str) : WState × Nat × Bool :=
  if ok s.calls then (⟨s.calls + 1, s.out ++ str⟩, str.length, true)
  else (⟨s.calls + 1, s.out⟩, 0, false)

/-- The always-accepting sink (e.g. a bytes.Buffer). -/
def okAll : Nat → Bool := fun _ => true

/-! ### HTML escaping (html.EscapeString) -/

/-- Per-character replacement performed by Go's `html.EscapeString`. -/
def escapeChar : Char → Str
  | '&' => "&amp;".toList
  | '\'' => "&#39;".toList
  | '<' => "&lt;".toList
  | '>' => "&gt;".toList
  | '"' => "&#34;".toList
  | c => [c]

/-- `html.EscapeString`. -/
def escapeString (s : Str) : Str := s.flatMap escapeChar

/-- Escape unless the node's escape-suppression flag is set. -/
def condEscape (ne : Bool) (s : Str) : Str := if ne then s else escapeString s

/-! ### Variable expansion (TextTagVar.write) -/

/-- A render environment: the Go `map[string]Value` (the only `Value`
variant wraps a string), as an association list with unique keys. -/
abbrev EnvL := List (Str × Str)

/-- Go map lookup `env[name]`. -/
def envLookup (env : EnvL) (name : Str) : Option Str :=
  (env.find? (fun p => p.1 == name)).map (·.2)

/-- Go slice `s[a:b]`. -/
def goSlice (s : Str) (a b : Nat) : Str := (s.take b).drop a

/-- Go slice `s[a:]`. -/
def goSliceFrom (s : Str) (a : Nat) : Str := s.drop a

/-- `TextTagVar` (text_tag_var.go): raw text, parsed spans, and the Go
`isUnsafe` flag (named `noEscape` here), which suppresses HTML escaping of
both literal text and substituted values. -/
structure TTVar where
  text : Str
  vars : List Var
  noEscape : Bool
  deriving DecidableEq

/-- The span loop of `TextTagVar.write`: `offset` is the text cursor,
`count` the accumulated byte count; on the first failing sink call the
function returns the count accumulated so far together with the failure. -/
def ttvWriteLoop (ok : Nat → Bool) (env : EnvL) (t : TTVar) :
    List Var → Nat → Nat → WState → WState × Nat × Bool
  | [], offset, count, s =>
    let text1 := condEscape t.noEscape (goSliceFrom t.text offset)
    let (s1, n1, b1) := wstring ok s text1
    if b1 then (s1, count + n1, true) else (s1, count, false)
  | v :: vs, offset, count, s =>
    let text1 := condEscape t.noEscape (goSlice t.text offset v.startOffset)
    let (s1, n1, b1) := wstring ok s text1
    if b1 then
      let count1 := count + n1
      let varName := (goSlice t.text v.startOffset (v.startOffset + v.length)).drop 1
      if varName = ['$'] then
        let (s2, n2, b2) := wstring ok s1 ['$']
        if b2 then ttvWriteLoop ok env t vs (v.startOffset + v.length) (count1 + n2) s2
        else (s2, count1, false)
      else
        let value := (envLookup env varName).getD ("undefined".toList)
        let value1 := condEscape t.noEscape value
        let (s2, n2, b2) := wstring ok s1 value1
        if b2 then ttvWriteLoop ok env t vs (v.startOffset + v.length) (count1 + n2) s2
        else (s2, count1, false)
    else (s1, count, false)

/-- `TextTagVar.write` (text_tag_var.go). -/
def ttvWrite (ok : Nat → Bool) (env : EnvL) (t : TTVar) (s : WState) :
    WState × Nat × Bool :=
  ttvWriteLoop ok env t t.vars 0 0 s

/-- Stated from the claim C2 narrative: for each span in order, the
(conditionally escaped) literal text before the span, then either one
literal `$` for the `$$` escape (never escaped) or the conditionally
escaped environment value — `"undefined"` when absent; finally the
conditionally escaped remaining suffix. -/
def claimExpandFrom (text : Str) (env : EnvL) (ne : Bool) : Nat → List Var → Str
  | offset, [] => condEscape ne (goSliceFrom text offset)
  | offset, v :: vs =>
    condEscape ne (goSlice text offset v.startOffset) ++
      (let name := (goSlice text v.startOffset (v.startOffset + v.length)).drop 1
       if name = ['$'] then ['$']
       else condEscape ne ((envLookup env name).getD ("undefined".toList))) ++
      claimExpandFrom text env ne (v.startOffset + v.length) vs

/-- The expansion described by claim C2, over a whole variable-text leaf. -/
def claimExpand (t : TTVar) (env : EnvL) : Str :=
  claimExpandFrom t.text env t.noEscape 0 t.vars

theorem ttvWriteLoop_okAll (env : EnvL) (t : TTVar) :
    ∀ (vs : List Var) (offset count : Nat) (s : WState),
      ttvWriteLoop okAll env t vs offset count s =
        ((ttvWriteLoop okAll env t vs offset count s).1,
          count + (claimExpandFrom t.text env t.noEscape offset vs).length, true) ∧
      (ttvWriteLoop okAll env t vs offset count s).1.out =
        s.out ++ claimExpandFrom t.text env t.noEscape offset vs := by
  intro vs
  induction vs with
  | nil =>
    intro offset count s
    simp [ttvWriteLoop, wstring, okAll, claimExpandFrom]
  | cons v vs ih =>
    intro offset count s
    simp only [ttvWriteLoop, wstring, okAll, if_true, claimExpandFrom,
      List.length_singleton]
    split
    · obtain ⟨h1, h2⟩ := ih (v.startOffset + v.length)
        (count + (condEscape t.noEscape (goSlice t.text offset v.startOffset)).length + 1)
        ⟨s.calls + 1 + 1, (s.out ++ condEscape t.noEscape (goSlice t.text offset v.startOffset)) ++ ['$']⟩
      refine ⟨?_, ?_⟩
      · rw [h1]
        simp
        omega
      · rw [h2]
        simp
    · obtain ⟨h1, h2⟩ := ih (v.startOffset + v.length)
        (count + (condEscape t.noEscape (goSlice t.text offset v.startOffset)).length +
          (condEscape t.noEscape
            ((envLookup env
              ((goSlice t.text v.startOffset (v.startOffset + v.length)).drop 1)).getD
                ("undefined".toList))).length)
        ⟨s.calls + 1 + 1, (s.out ++ condEscape t.noEscape (goSlice t.text offset v.startOffset)) ++
          condEscape t.noEscape
            ((envLookup env
              ((goSlice t.text v.startOffset (v.startOffset + v.length)).drop 1)).getD
                ("undefined".toList))⟩
      refine ⟨?_, ?_⟩
      · rw [h1]
        simp
        omega
      · rw [h2]
        simp

/-- C2: with a never-failing sink, `TextTagVar.write` succeeds, appends to
the sink exactly the expansion described by the claim (literal segments
escaped iff the node is not unsafe, `$$` giving one literal never-escaped
`$`, other names resolved in the environment with `"undefined"` as the
absent-name fallback and escaped iff the node is not unsafe, then the
escaped remaining suffix), and reports that expansion's byte length. -/
theorem claim_C2_ttv_write (t : TTVar) (env : EnvL) (s : WState) :
    (ttvWrite okAll env t s).1.out = s.out ++ claimExpand t env ∧
    (ttvWrite okAll env t s).2.1 = (claimExpand t env).length ∧
    (ttvWrite okAll env t s).2.2 = true := by
  obtain ⟨h1, h2⟩ := ttvWriteLoop_okAll env t t.vars 0 0 s
  refine ⟨h2, ?_, ?_⟩
  · show (ttvWriteLoop okAll env t t.vars 0 0 s).2.1 = _
    rw [h1]
    simp [claimExpand]
  · show (ttvWriteLoop okAll env t t.vars 0 0 s).2.2 = true
    rw [h1]

/-! ### Known attribute and element name tables (constants.go) -/

/-- `attrStringMap`, indexed by the `kAttr` ordinals (iota order). -/
def attrStringMap : List String :=
  ["accept-charset", "action", "alt", "autocomplete", "autofocus", "border",
   "charset", "checked", "class", "cols", "colspan", "content", "disabled",
   "enctype", "for", "form", "headers", "height", "href", "hreflang",
   "http-equiv", "id", "ismap", "label", "list", "max", "maxlength", "media",
   "method", "min", "multiple", "name", "onblur", "onchange", "onclick",
   "ondblclick", "onfocus", "onload", "onkeydown", "onkeypress", "onkeyup",
   "onmousedown", "onmousemove", "onmouseout", "onmouseover", "onmouseup",
   "onselect", "onsubmit", "pattern", "placeholder", "rowspan", "readonly",
   "rel", "required", "rows", "scope", "selected", "size", "src", "step",
   "target", "title", "type", "usemap", "value", "width", "wrap"]

/-- Array lookup `attrStringMap[keyId]`. -/
def attrName (keyId : Nat) : String := attrStringMap.getD keyId ""

/-- `tagTypeStringMap`, indexed by the `kTagType` ordinals (iota order). -/
def tagTypeStringMap : List String :=
  ["a", "abbr", "address", "b", "blockquote", "body", "br", "button",
   "canvas", "caption", "cite", "code", "datalist", "dfn", "div", "dd",
   "dl", "dt", "em", "footer", "form", "h1", "h2", "h3", "h4", "h5", "h6",
   "head", "hr", "html", "i", "img", "input", "kbd", "label", "li", "link",
   "meta", "noscript", "ol", "option", "p", "pre", "samp", "script",
   "select", "small", "span", "strong", "style", "table", "tbody", "td",
   "textarea", "tfoot", "th", "thead", "title", "tr", "u", "ul", "var"]

/-- Array lookup `tagTypeStringMap[tagType]`. -/
def tagName (tagType : Nat) : String := tagTypeStringMap.getD tagType ""

def kAttrAction : Nat := 1
def kAttrAlt : Nat := 2
def kAttrAutocomplete : Nat := 3
def kAttrChecked : Nat := 7
def kAttrClass : Nat := 8
def kAttrDisabled : Nat := 12
def kAttrHeight : Nat := 17
def kAttrId : Nat := 21
def kAttrMaxlength : Nat := 26
def kAttrReadonly : Nat := 51
def kAttrSize : Nat := 57
def kAttrSrc : Nat := 58
def kAttrType : Nat := 62
def kAttrValue : Nat := 64
def kAttrWidth : Nat := 65

def kTagTypeBr : Nat := 6
def kTagTypeDiv : Nat := 14
def kTagTypeImg : Nat := 31
def kTagTypeInput : Nat := 32
def kTagTypeSpan : Nat := 47

/-! ### Go maps as association lists -/

/-- Go map assignment `m[k] = v` on an association list carrying one
iteration order: replace in place, or append a new key. -/
def alSet {κ : Type} [BEq κ] (l : List (κ × String)) (k : κ) (v : String) :
    List (κ × String) :=
  if l.any (fun p => p.1 == k) then
    l.map (fun p => if p.1 == k then (k, v) else p)
  else l ++ [(k, v)]

/-- Go `delete(m, k)`. -/
def alDel {κ : Type} [BEq κ] (l : List (κ × String)) (k : κ) : List (κ × String) :=
  l.filter (fun p => p.1 != k)

/-- Go read `m[k]` with the zero-value default `""`. -/
def alGet {κ : Type} [BEq κ] (l : List (κ × String)) (k : κ) : String :=
  ((l.find? (fun p => p.1 == k)).map (·.2)).getD ""

/-! ### baseTag state and the open-tag cache (base_tag.go) -/

/-- The `baseTag` fields that matter for rendering: element identity, the
two attribute maps (with one iteration order each), the open-tag cache and
the hidden flag. -/
structure BaseData where
  tagType : Nat
  attrs : List (Nat × String)
  customAttrs : List (String × String)
  isCacheClean : Bool
  cacheOpen : Str
  hidden : Bool
  deriving DecidableEq

/-- `writeKeyValue` (htmlgen.go): the four strings `key`, `="`, `value`,
`"` passed to the writer. -/
def keyValueChunks (key value : String) : List Str :=
  [key.toList, "=\"".toList, value.toList, ['"']]

/-- `writeKeyIdValue` (htmlgen.go): known-attribute name looked up in
`attrStringMap`. -/
def keyIdValueChunks (keyId : Nat) (value : String) : List Str :=
  keyValueChunks (attrName keyId) value

/-- `writeOpenTagLead` (base_tag.go): `<name` followed by each known
attribute and then each custom attribute, in map iteration order, as the
sequence of strings passed to the writer. -/
def openTagLeadChunks (b : BaseData) (tagStr : String) : List Str :=
  [['<'], tagStr.toList] ++
    b.attrs.flatMap (fun p => [' '] :: keyIdValueChunks p.1 p.2) ++
    b.customAttrs.flatMap (fun p => [' '] :: keyValueChunks p.1 p.2)

/-- `baseTag.renderCacheOpen`: the open tag rendered into a fresh
bytes.Buffer (which never fails), closed by `>`. -/
def renderCacheOpen (b : BaseData) (tagStr : String) : Str :=
  (openTagLeadChunks b tagStr).flatten ++ ['>']

/-- `singleTag.renderCacheOpen`: as above but closed by ` />`. -/
def renderCacheOpenSingle (b : BaseData) (tagStr : String) : Str :=
  (openTagLeadChunks b tagStr).flatten ++ " />".toList

/-- The lazily rebuilt cache: `if !t.isCacheClean { rebuild; mark clean }`
(base_tag.go write; the rebuild cannot fail). -/
def refreshCache (b : BaseData) : BaseData :=
  if b.isCacheClean then b
  else { b with cacheOpen := renderCacheOpen b (tagName b.tagType), isCacheClean := true }

/-- Same for singleTag.write. -/
def refreshCacheSingle (b : BaseData) : BaseData :=
  if b.isCacheClean then b
  else { b with cacheOpen := renderCacheOpenSingle b (tagName b.tagType), isCacheClean := true }

/-! ### The node tree (tag.go) -/

/-- The closed set of writer kinds: normal elements (`baseTag`),
self-closing elements (`singleTag`), the comment, null and document-root
wrappers, plain text leaves and variable-text leaves. -/
inductive TagNode where
  | elem (b : BaseData) (children : List TagNode)
  | single (b : BaseData)
  | comment (b : BaseData) (children : List TagNode)
  | nullW (b : BaseData) (children : List TagNode)
  | html (b : BaseData) (children : List TagNode)
  | textT (text : Str)
  | textVar (tv : TTVar)

/-- `tagWriter.isHidden`: every baseTag-embedding kind reports its hidden
flag; text leaves are never hidden. -/
def TagNode.isHidden : TagNode → Bool
  | .elem b _ => b.hidden
  | .single b => b.hidden
  | .comment b _ => b.hidden
  | .nullW b _ => b.hidden
  | .html b _ => b.hidden
  | .textT _ => false
  | .textVar _ => false

/-! ### Compact rendering (the write methods) -/

mutual

/-- `baseTag.write` (base_tag.go): nothing when hidden; otherwise rebuild
the cache if dirty, emit it, recurse into all children (accumulating the
count of each fully successful child, discarding the count returned by a
failing child), then emit `</`, the tag name and `>`.  Returns the node
with its updated cache, the sink state, the reported count and the
success flag. -/
def baseWrite (ok : Nat → Bool) (env : EnvL) (b : BaseData) (cs : List TagNode)
    (s : WState) : BaseData × List TagNode × WState × Nat × Bool :=
  if b.hidden then (b, cs, s, 0, true)
  else
    let tagStr := tagName b.tagType
    let b1 := refreshCache b
    let (s1, n1, ok1) := wstring ok s b1.cacheOpen
    if ok1 then
      let (cs1, s2, n2, ok2) := treeWriteList ok env cs s1
      if ok2 then
        let (s3, n3, ok3) := wstring ok s2 ("</".toList)
        if ok3 then
          let (s4, n4, ok4) := wstring ok s3 tagStr.toList
          if ok4 then
            let (s5, n5, ok5) := wstring ok s4 ['>']
            if ok5 then (b1, cs1, s5, n1 + n2 + n3 + n4 + n5, true)
            else (b1, cs1, s5, n1 + n2 + n3 + n4, false)
          else (b1, cs1, s4, n1 + n2 + n3, false)
        else (b1, cs1, s3, n1 + n2, false)
      else (b1, cs1, s2, n1 + n2, false)
    else (b1, cs, s1, 0, false)

/-- The `write` methods of every node kind (base_tag.go, tag.go,
text_tag_var.go).  Note that `singleTag.write`, `commentTag.write` and
`nullTag.write` do not consult the hidden flag, and `htmlTag.write` emits
the DOCTYPE before delegating to `baseTag.write` (whose count it discards
on failure). -/
def treeWrite (ok : Nat → Bool) (env : EnvL) : TagNode → WState → TagNode × WState × Nat × Bool
  | .textT text, s =>
    let (s1, n1, b1) := wstring ok s text
    (.textT text, s1, n1, b1)
  | .textVar tv, s =>
    let (s1, n1, b1) := ttvWrite ok env tv s
    (.textVar tv, s1, n1, b1)
  | .single b, s =>
    let b1 := refreshCacheSingle b
    let (s1, n1, ok1) := wstring ok s b1.cacheOpen
    (.single b1, s1, n1, ok1)
  | .elem b cs, s =>
    let (b1, cs1, s1, n1, ok1) := baseWrite ok env b cs s
    (.elem b1 cs1, s1, n1, ok1)
  | .comment b cs, s =>
    let (s1, n1, ok1) := wstring ok s ("<!-- ".toList)
    if ok1 then
      let (cs1, s2, n2, ok2) := treeWriteList ok env cs s1
      if ok2 then
        let (s3, n3, ok3) := wstring ok s2 (" -->".toList)
        if ok3 then (.comment b cs1, s3, n1 + n2 + n3, true)
        else (.comment b cs1, s3, n1 + n2, false)
      else (.comment b cs1, s2, n1 + n2, false)
    else (.comment b cs, s1, 0, false)
  | .nullW b cs, s =>
    let (cs1, s1, n1, ok1) := treeWriteList ok env cs s
    (.nullW b cs1, s1, n1, ok1)
  | .html b cs, s =>
    let (s1, n1, ok1) := wstring ok s ("<!DOCTYPE html>".toList)
    if ok1 then
      let (b2, cs2, s2, n2, ok2) := baseWrite ok env b cs s1
      if ok2 then (.html b2 cs2, s2, n1 + n2, true)
      else (.html b2 cs2, s2, n1, false)
    else (.html b cs, s1, 0, false)

/-- The children loop shared by the write methods: fully successful
children contribute their counts; a failing child aborts the loop and its
partial count is discarded (`return n, err` before `n += count`). -/
def treeWriteList (ok : Nat → Bool) (env : EnvL) :
    List TagNode → WState → List TagNode × WState × Nat × Bool
  | [], s => ([], s, 0, true)
  | c :: cs, s =>
    let (c1, s1, n1, b1) := treeWrite ok env c s
    if b1 then
      let (cs1, s2, n2, b2) := treeWriteList ok env cs s1
      (c1 :: cs1, s2, n1 + n2, b2)
    else (c1 :: cs, s1, 0, false)

end

/-! ### The pure chunk sequence of a compact render -/

/-- The strings `TextTagVar.write` passes to the writer, in order. -/
def ttvChunksLoop (env : EnvL) (t : TTVar) : List Var → Nat → List Str
  | [], offset => [condEscape t.noEscape (goSliceFrom t.text offset)]
  | v :: vs, offset =>
    condEscape t.noEscape (goSlice t.text offset v.startOffset) ::
      (if (goSlice t.text v.startOffset (v.startOffset + v.length)).drop 1 = ['$'] then ['$']
       else condEscape t.noEscape
         ((envLookup env ((goSlice t.text v.startOffset (v.startOffset + v.length)).drop 1)).getD
           ("undefined".toList))) ::
      ttvChunksLoop env t vs (v.startOffset + v.length)

def ttvChunks (env : EnvL) (t : TTVar) : List Str := ttvChunksLoop env t t.vars 0

mutual

/-- The strings a compact render passes to the writer, in order (pure:
the lazy cache rebuild cannot fail and always produces the same string). -/
def chunks (env : EnvL) : TagNode → List Str
  | .textT text => [text]
  | .textVar tv => ttvChunks env tv
  | .single b => [(refreshCacheSingle b).cacheOpen]
  | .elem b cs => baseChunks env b cs
  | .comment b cs => "<!-- ".toList :: (chunksList env cs ++ [" -->".toList])
  | .nullW _ cs => chunksList env cs
  | .html b cs => "<!DOCTYPE html>".toList :: baseChunks env b cs

def baseChunks (env : EnvL) (b : BaseData) (cs : List TagNode) : List Str :=
  if b.hidden then []
  else (refreshCache b).cacheOpen ::
    (chunksList env cs ++ ["</".toList, (tagName b.tagType).toList, ['>']])

def chunksList (env : EnvL) : List TagNode → List Str
  | [] => []
  | c :: cs => chunks env c ++ chunksList env cs

end

/-- Forget the cache fields of a node's base data. -/
def BaseData.eraseC (b : BaseData) : BaseData :=
  { b with isCacheClean := false, cacheOpen := [] }

mutual

/-- A node with its open-tag caches forgotten: everything the renderer may
legitimately change during a render is erased. -/
def eraseCache : TagNode → TagNode
  | .elem b cs => .elem b.eraseC (eraseCacheList cs)
  | .single b => .single b.eraseC
  | .comment b cs => .comment b.eraseC (eraseCacheList cs)
  | .nullW b cs => .nullW b.eraseC (eraseCacheList cs)
  | .html b cs => .html b.eraseC (eraseCacheList cs)
  | .textT text => .textT text
  | .textVar tv => .textVar tv

def eraseCacheList : List TagNode → List TagNode
  | [] => []
  | c :: cs => eraseCache c :: eraseCacheList cs

end

/-- Feed a list of strings to the sink, accumulating the lengths of the
successful whole-string writes and stopping at the first failure. -/
def runSink (ok : Nat → Bool) (s : WState) : List Str → WState × Nat × Bool
  | [] => (s, 0, true)
  | c :: cs =>
    let (s1, n1, b1) := wstring ok s c
    if b1 then
      let (s2, n2, b2) := runSink ok s1 cs
      (s2, n1 + n2, b2)
    else (s1, 0, false)

theorem wstring_calls (ok : Nat → Bool) (s : WState) (str : Str) :
    (wstring ok s str).1.calls = s.calls + 1 := by
  simp only [wstring]
  split <;> rfl

theorem runSink_append (ok : Nat → Bool) (l1 l2 : List Str) : ∀ s : WState,
    runSink ok s (l1 ++ l2) =
      (if (runSink ok s l1).2.2 then
        ((runSink ok (runSink ok s l1).1 l2).1,
          (runSink ok s l1).2.1 + (runSink ok (runSink ok s l1).1 l2).2.1,
          (runSink ok (runSink ok s l1).1 l2).2.2)
      else runSink ok s l1) := by
  induction l1 with
  | nil => intro s; simp [runSink]
  | cons c cs ih =>
    intro s
    by_cases h : ok s.calls
    · simp only [List.cons_append, runSink, wstring, h, if_true, List.append_eq]
      rw [ih]
      by_cases h2 : (runSink ok ⟨s.calls + 1, s.out ++ c⟩ cs).2.2
      · simp [h2, Nat.add_assoc]
      · simp [h2]
    · simp [runSink, wstring, h]

theorem runSink_out (ok : Nat → Bool) (l : List Str) : ∀ s : WState,
    ∃ δ : Str, (runSink ok s l).1.out = s.out ++ δ ∧ (runSink ok s l).2.1 = δ.length := by
  induction l with
  | nil => intro s; exact ⟨[], by simp [runSink], by simp [runSink]⟩
  | cons c cs ih =>
    intro s
    by_cases h : ok s.calls
    · obtain ⟨δ, h1, h2⟩ := ih ⟨s.calls + 1, s.out ++ c⟩
      exact ⟨c ++ δ, by simp [runSink, wstring, h, h1], by simp [runSink, wstring, h, h2]⟩
    · exact ⟨[], by simp [runSink, wstring, h], by simp [runSink, wstring, h]⟩

theorem runSink_calls (ok : Nat → Bool) (l : List Str) : ∀ s : WState,
    s.calls ≤ (runSink ok s l).1.calls ∧
    (runSink ok s l).1.calls ≤ s.calls + l.length := by
  induction l with
  | nil => intro s; simp [runSink]
  | cons c cs ih =>
    intro s
    by_cases h : ok s.calls
    · have hthis := ih ⟨s.calls + 1, s.out ++ c⟩
      have hsc : (⟨s.calls + 1, s.out ++ c⟩ : WState).calls = s.calls + 1 := rfl
      rw [hsc] at hthis
      simp only [runSink, wstring, h, if_true]
      constructor
      · calc s.calls ≤ s.calls + 1 := by omega
          _ ≤ _ := hthis.1
      · calc (runSink ok ⟨s.calls + 1, s.out ++ c⟩ cs).1.calls
            ≤ s.calls + 1 + cs.length := hthis.2
          _ = s.calls + (c :: cs).length := by simp; omega
    · simp [runSink, wstring, h]

theorem runSink_success (ok : Nat → Bool) (l : List Str) : ∀ s : WState,
    (runSink ok s l).2.2 = true →
      (runSink ok s l).1.calls = s.calls + l.length ∧
      ∀ i, s.calls ≤ i → i < s.calls + l.length → ok i = true := by
  induction l with
  | nil =>
    intro s _
    refine ⟨by simp [runSink], ?_⟩
    intro i h1 h2
    simp at h2
    omega
  | cons c cs ih =>
    intro s hsucc
    by_cases h : ok s.calls
    · simp only [runSink, wstring, h, if_true] at hsucc ⊢
      obtain ⟨h1, h2⟩ := ih ⟨s.calls + 1, s.out ++ c⟩ hsucc
      have hsc : (⟨s.calls + 1, s.out ++ c⟩ : WState).calls = s.calls + 1 := rfl
      rw [hsc] at h1 h2
      constructor
      · rw [h1]
        simp
        omega
      · intro i hi1 hi2
        rcases Nat.eq_or_lt_of_le hi1 with rfl | hlt
        · exact h
        · refine h2 i (by omega) ?_
          simp at hi2
          omega
    · simp [runSink, wstring, h] at hsucc

theorem runSink_failure (ok : Nat → Bool) (l : List Str) : ∀ s : WState,
    (runSink ok s l).2.2 = false →
      s.calls < (runSink ok s l).1.calls ∧
      ok ((runSink ok s l).1.calls - 1) = false ∧
      ∀ i, s.calls ≤ i → i < (runSink ok s l).1.calls - 1 → ok i = true := by
  induction l with
  | nil => intro s h; simp [runSink] at h
  | cons c cs ih =>
    intro s hfail
    by_cases h : ok s.calls
    · simp only [runSink, wstring, h, if_true] at hfail ⊢
      obtain ⟨h1, h2, h3⟩ := ih ⟨s.calls + 1, s.out ++ c⟩ hfail
      have hsc : (⟨s.calls + 1, s.out ++ c⟩ : WState).calls = s.calls + 1 := rfl
      rw [hsc] at h1 h3
      refine ⟨by omega, h2, ?_⟩
      intro i hi1 hi2
      rcases Nat.eq_or_lt_of_le hi1 with rfl | hlt
      · exact h
      · exact h3 i (by omega) hi2
    · simp only [runSink, wstring, h, if_false, Bool.false_eq_true]
      refine ⟨by simp, by simpa using h, ?_⟩
      intro i hi1 hi2
      simp at hi2
      omega

theorem refreshCache_eraseC (b : BaseData) : (refreshCache b).eraseC = b.eraseC := by
  simp only [refreshCache]
  split <;> simp [BaseData.eraseC]

theorem refreshCacheSingle_eraseC (b : BaseData) :
    (refreshCacheSingle b).eraseC = b.eraseC := by
  simp only [refreshCacheSingle]
  split <;> simp [BaseData.eraseC]

theorem refreshCache_idem (b : BaseData) : refreshCache (refreshCache b) = refreshCache b := by
  by_cases h : b.isCacheClean <;> simp [refreshCache, h]

theorem refreshCacheSingle_idem (b : BaseData) :
    refreshCacheSingle (refreshCacheSingle b) = refreshCacheSingle b := by
  by_cases h : b.isCacheClean <;> simp [refreshCacheSingle, h]

theorem refreshCache_hidden (b : BaseData) : (refreshCache b).hidden = b.hidden := by
  simp only [refreshCache]
  split <;> simp

theorem refreshCache_tagType (b : BaseData) : (refreshCache b).tagType = b.tagType := by
  simp only [refreshCache]
  split <;> simp

theorem baseChunks_refresh (env : EnvL) (b : BaseData) (cs : List TagNode) :
    baseChunks env (refreshCache b) cs = baseChunks env b cs := by
  simp only [baseChunks, refreshCache_hidden, refreshCache_idem, refreshCache_tagType]

/-- `TextTagVar.write` interacts with the sink exactly as the generic
chunk runner over its chunk sequence, adding the incoming count. -/
theorem ttvWriteLoop_runSink (ok : Nat → Bool) (env : EnvL) (t : TTVar) :
    ∀ (vs : List Var) (offset count : Nat) (s : WState),
      ttvWriteLoop ok env t vs offset count s =
        ((runSink ok s (ttvChunksLoop env t vs offset)).1,
          count + (runSink ok s (ttvChunksLoop env t vs offset)).2.1,
          (runSink ok s (ttvChunksLoop env t vs offset)).2.2) := by
  intro vs
  induction vs with
  | nil =>
    intro offset count s
    by_cases h : ok s.calls <;>
      simp [ttvWriteLoop, ttvChunksLoop, runSink, wstring, h]
  | cons v vs ih =>
    intro offset count s
    by_cases h1 : ok s.calls
    · by_cases h2 : ok (s.calls + 1)
      · by_cases hname :
            (goSlice t.text v.startOffset (v.startOffset + v.length)).drop 1 = ['$']
        · simp only [ttvWriteLoop, ttvChunksLoop, runSink, wstring, h1, h2, hname,
            if_true, List.length_singleton]
          rw [ih]
          simp [Nat.add_assoc]
        · simp only [ttvWriteLoop, ttvChunksLoop, runSink, wstring, h1, h2, hname,
            if_true, if_false, List.length_singleton]
          rw [ih]
          simp [Nat.add_assoc]
      · by_cases hname :
            (goSlice t.text v.startOffset (v.startOffset + v.length)).drop 1 = ['$']
        · simp [ttvWriteLoop, ttvChunksLoop, runSink, wstring, h1, h2, hname]
        · simp [ttvWriteLoop, ttvChunksLoop, runSink, wstring, h1, h2, hname]
    · simp [ttvWriteLoop, ttvChunksLoop, runSink, wstring, h1]

theorem ttvWrite_runSink (ok : Nat → Bool) (env : EnvL) (t : TTVar) (s : WState) :
    ttvWrite ok env t s =
      ((runSink ok s (ttvChunks env t)).1, (runSink ok s (ttvChunks env t)).2.1,
        (runSink ok s (ttvChunks env t)).2.2) := by
  have := ttvWriteLoop_runSink ok env t t.vars 0 0 s
  simpa [ttvWrite, ttvChunks] using this

/-- Relation between a write call's sink-facing result `r` and the generic
chunk run `q`: same final sink state and success flag, the same reported
count on success, and never a larger reported count (a failing child's
partial count is dropped by the Go loops). -/
def SinkMatch (r q : WState × Nat × Bool) : Prop :=
  r.1 = q.1 ∧ r.2.2 = q.2.2 ∧ (q.2.2 = true → r.2.1 = q.2.1) ∧ r.2.1 ≤ q.2.1

mutual

theorem baseWrite_spec (ok : Nat → Bool) (env : EnvL) (b : BaseData) (cs : List TagNode)
    (s : WState) :
    SinkMatch (baseWrite ok env b cs s).2.2 (runSink ok s (baseChunks env b cs)) ∧
    (baseWrite ok env b cs s).1.eraseC = b.eraseC ∧
    eraseCacheList (baseWrite ok env b cs s).2.1 = eraseCacheList cs ∧
    baseChunks env (baseWrite ok env b cs s).1 (baseWrite ok env b cs s).2.1 =
      baseChunks env b cs := by
  by_cases hh : b.hidden
  · simp [baseWrite, baseChunks, hh, runSink, SinkMatch]
  · by_cases h1 : ok s.calls
    · obtain ⟨hm2, he2, hc2⟩ :=
        treeWriteList_spec ok env cs ⟨s.calls + 1, s.out ++ (refreshCache b).cacheOpen⟩
      rcases hw2 : treeWriteList ok env cs ⟨s.calls + 1, s.out ++ (refreshCache b).cacheOpen⟩
        with ⟨cs1, s2, n2, ok2⟩
      rw [hw2] at hm2 he2 hc2
      dsimp only at he2 hc2
      rcases hq2 : runSink ok ⟨s.calls + 1, s.out ++ (refreshCache b).cacheOpen⟩
          (chunksList env cs) with ⟨qs2, qn2, qb2⟩
      rw [hq2] at hm2
      obtain ⟨hms, hmb, hmeq, hmle⟩ := hm2
      simp only at hms hmb hmeq hmle
      subst hms hmb
      cases ok2 with
      | false =>
        simp only [baseWrite, hh, if_false, Bool.false_eq_true, wstring, h1, if_true,
          hw2, baseChunks, runSink, List.append_eq, runSink_append, hq2]
        refine ⟨⟨?_, ?_, ?_, ?_⟩, ?_, ?_, ?_⟩ <;>
          first
            | trivial
            | exact refreshCache_eraseC b
            | exact he2
            | (dsimp only; omega)
            | (intro _; dsimp only; omega)
            | (simp [baseChunks, hh, refreshCache_hidden, refreshCache_idem,
                refreshCache_tagType, hc2]; done)
      | true =>
        have hn2 : n2 = qn2 := hmeq rfl
        subst hn2
        by_cases h3 : ok s2.calls
        · by_cases h4 : ok (s2.calls + 1)
          · by_cases h5 : ok (s2.calls + 1 + 1)
            · simp only [baseWrite, hh, if_false, Bool.false_eq_true, wstring, h1, if_true,
                hw2, baseChunks, runSink, List.append_eq, runSink_append, hq2, h3, h4, h5]
              refine ⟨⟨?_, ?_, ?_, ?_⟩, ?_, ?_, ?_⟩ <;>
                first
                  | trivial
                  | exact refreshCache_eraseC b
                  | exact he2
                  | (dsimp only; omega)
                  | (intro _; dsimp only; omega)
                  | (simp [baseChunks, hh, refreshCache_hidden, refreshCache_idem,
                      refreshCache_tagType, hc2]; done)
            · simp only [baseWrite, hh, if_false, Bool.false_eq_true, wstring, h1, if_true,
                hw2, baseChunks, runSink, List.append_eq, runSink_append, hq2, h3, h4, h5]
              refine ⟨⟨?_, ?_, ?_, ?_⟩, ?_, ?_, ?_⟩ <;>
                first
                  | trivial
                  | exact refreshCache_eraseC b
                  | exact he2
                  | (dsimp only; omega)
                  | (intro _; dsimp only; omega)
                  | (simp [baseChunks, hh, refreshCache_hidden, refreshCache_idem,
                      refreshCache_tagType, hc2]; done)
          · simp only [baseWrite, hh, if_false, Bool.false_eq_true, wstring, h1, if_true,
              hw2, baseChunks, runSink, List.append_eq, runSink_append, hq2, h3, h4]
            refine ⟨⟨?_, ?_, ?_, ?_⟩, ?_, ?_, ?_⟩ <;>
              first
                | trivial
                | exact refreshCache_eraseC b
                | exact he2
                | (dsimp only; omega)
                | (intro _; dsimp only; omega)
                | simp [baseChunks, hh, refreshCache_hidden, refreshCache_idem,
                    refreshCache_tagType, hc2]
        · simp only [baseWrite, hh, if_false, Bool.false_eq_true, wstring, h1, if_true,
            hw2, baseChunks, runSink, List.append_eq, runSink_append, hq2, h3]
          refine ⟨⟨?_, ?_, ?_, ?_⟩, ?_, ?_, ?_⟩ <;>
            first
              | trivial
              | exact refreshCache_eraseC b
              | exact he2
              | (dsimp only; omega)
              | (intro _; dsimp only; omega)
              | (simp [baseChunks, hh, refreshCache_hidden, refreshCache_idem,
                  refreshCache_tagType, hc2]; done)
    · simp only [baseWrite, hh, if_false, Bool.false_eq_true, wstring, h1, baseChunks,
        runSink]
      refine ⟨⟨?_, ?_, ?_, ?_⟩, ?_, ?_, ?_⟩ <;>
        first
          | trivial
          | exact refreshCache_eraseC b
          | (dsimp only; omega)
          | (intro _; dsimp only; omega)
          | (simp [baseChunks, hh, refreshCache_hidden, refreshCache_idem,
              refreshCache_tagType]; done)

theorem treeWrite_spec (ok : Nat → Bool) (env : EnvL) (t : TagNode) (s : WState) :
    SinkMatch (treeWrite ok env t s).2 (runSink ok s (chunks env t)) ∧
    eraseCache (treeWrite ok env t s).1 = eraseCache t ∧
    chunks env (treeWrite ok env t s).1 = chunks env t := by
  cases t with
  | textT text =>
    by_cases h : ok s.calls <;>
      simp [treeWrite, chunks, runSink, wstring, h, SinkMatch, eraseCache]
  | textVar tv =>
    simp only [treeWrite, ttvWrite_runSink]
    simp [chunks, SinkMatch, eraseCache]
  | single b =>
    by_cases h : ok s.calls <;>
      simp [treeWrite, chunks, runSink, wstring, h, SinkMatch, eraseCache,
        refreshCacheSingle_eraseC, refreshCacheSingle_idem]
  | elem b cs =>
    obtain ⟨hm, he1, he2, hc⟩ := baseWrite_spec ok env b cs s
    rcases hw : baseWrite ok env b cs s with ⟨b1, cs1, s1, n1, ok1⟩
    rw [hw] at hm he1 he2 hc
    simp only [treeWrite, hw, chunks]
    dsimp only at hm he1 he2 hc ⊢
    exact ⟨hm, by simp [eraseCache, he1, he2], hc⟩
  | nullW b cs =>
    obtain ⟨hm, he, hc⟩ := treeWriteList_spec ok env cs s
    rcases hw : treeWriteList ok env cs s with ⟨cs1, s1, n1, ok1⟩
    rw [hw] at hm he hc
    simp only [treeWrite, hw, chunks]
    dsimp only at hm he hc ⊢
    exact ⟨hm, by simp [eraseCache, he], hc⟩
  | comment b cs =>
    by_cases h1 : ok s.calls
    · obtain ⟨hm2, he2, hc2⟩ :=
        treeWriteList_spec ok env cs ⟨s.calls + 1, s.out ++ "<!-- ".toList⟩
      rcases hw2 : treeWriteList ok env cs ⟨s.calls + 1, s.out ++ "<!-- ".toList⟩
        with ⟨cs1, s2, n2, ok2⟩
      rw [hw2] at hm2 he2 hc2
      dsimp only at he2 hc2
      rcases hq2 : runSink ok ⟨s.calls + 1, s.out ++ "<!-- ".toList⟩ (chunksList env cs)
        with ⟨qs2, qn2, qb2⟩
      rw [hq2] at hm2
      obtain ⟨hms, hmb, hmeq, hmle⟩ := hm2
      simp only at hms hmb hmeq hmle
      subst hms hmb
      cases ok2 with
      | false =>
        simp only [treeWrite, wstring, h1, if_true, hw2, Bool.false_eq_true, if_false,
          chunks, runSink, List.append_eq, runSink_append, hq2]
        refine ⟨⟨?_, ?_, ?_, ?_⟩, ?_, ?_⟩ <;>
          first
            | trivial
            | (dsimp only; omega)
            | (intro _; dsimp only; omega)
            | (simp [eraseCache, he2]; done)
            | (simp [chunks, hc2]; done)
      | true =>
        have hn2 : n2 = qn2 := hmeq rfl
        subst hn2
        by_cases h3 : ok s2.calls
        · simp only [treeWrite, wstring, h1, if_true, hw2, chunks, runSink,
            List.append_eq, runSink_append, hq2, h3]
          refine ⟨⟨?_, ?_, ?_, ?_⟩, ?_, ?_⟩ <;>
            first
              | trivial
              | (dsimp only; omega)
              | (intro _; dsimp only; omega)
              | (simp [eraseCache, he2]; done)
              | (simp [chunks, hc2]; done)
        · simp only [treeWrite, wstring, h1, if_true, hw2, chunks, runSink,
            List.append_eq, runSink_append, hq2, h3]
          refine ⟨⟨?_, ?_, ?_, ?_⟩, ?_, ?_⟩ <;>
            first
              | trivial
              | (dsimp only; omega)
              | (intro _; dsimp only; omega)
              | (simp [eraseCache, he2]; done)
              | (simp [chunks, hc2]; done)
    · simp only [treeWrite, wstring, h1, chunks, runSink]
      refine ⟨⟨?_, ?_, ?_, ?_⟩, ?_, ?_⟩ <;>
        first
          | trivial
          | (dsimp only; omega)
          | (intro _; dsimp only; omega)
          | (simp [eraseCache]; done)
          | (simp [chunks]; done)
  | html b cs =>
    by_cases h1 : ok s.calls
    · obtain ⟨hm2, he1, he2, hc2⟩ :=
        baseWrite_spec ok env b cs ⟨s.calls + 1, s.out ++ "<!DOCTYPE html>".toList⟩
      rcases hw2 : baseWrite ok env b cs ⟨s.calls + 1, s.out ++ "<!DOCTYPE html>".toList⟩
        with ⟨b1, cs1, s2, n2, ok2⟩
      rw [hw2] at hm2 he1 he2 hc2
      dsimp only at he1 he2 hc2
      rcases hq2 : runSink ok ⟨s.calls + 1, s.out ++ "<!DOCTYPE html>".toList⟩
          (baseChunks env b cs) with ⟨qs2, qn2, qb2⟩
      rw [hq2] at hm2
      obtain ⟨hms, hmb, hmeq, hmle⟩ := hm2
      simp only at hms hmb hmeq hmle
      subst hms hmb
      cases ok2 with
      | false =>
        simp only [treeWrite, wstring, h1, if_true, hw2, Bool.false_eq_true, if_false,
          chunks, runSink, hq2]
        refine ⟨⟨?_, ?_, ?_, ?_⟩, ?_, ?_⟩ <;>
          first
            | trivial
            | (dsimp only; omega)
            | (intro _; dsimp only; omega)
            | (simp [eraseCache, he1, he2]; done)
            | (simp [chunks, hc2]; done)
      | true =>
        have hn2 : n2 = qn2 := hmeq rfl
        subst hn2
        simp only [treeWrite, wstring, h1, if_true, hw2, chunks, runSink, hq2]
        refine ⟨⟨?_, ?_, ?_, ?_⟩, ?_, ?_⟩ <;>
          first
            | trivial
            | (dsimp only; omega)
            | (intro _; dsimp only; omega)
            | (simp [eraseCache, he1, he2]; done)
            | (simp [chunks, hc2]; done)
    · simp only [treeWrite, wstring, h1, chunks, runSink]
      refine ⟨⟨?_, ?_, ?_, ?_⟩, ?_, ?_⟩ <;>
        first
          | trivial
          | (dsimp only; omega)
          | (intro _; dsimp only; omega)
          | (simp [eraseCache]; done)
          | (simp [chunks]; done)

theorem treeWriteList_spec (ok : Nat → Bool) (env : EnvL) (cs : List TagNode) (s : WState) :
    SinkMatch (treeWriteList ok env cs s).2 (runSink ok s (chunksList env cs)) ∧
    eraseCacheList (treeWriteList ok env cs s).1 = eraseCacheList cs ∧
    chunksList env (treeWriteList ok env cs s).1 = chunksList env cs := by
  cases cs with
  | nil => simp [treeWriteList, chunksList, runSink, SinkMatch]
  | cons c cs =>
    obtain ⟨hm1, he1, hc1⟩ := treeWrite_spec ok env c s
    rcases hw1 : treeWrite ok env c s with ⟨c1, s1, n1, b1⟩
    rw [hw1] at hm1 he1 hc1
    dsimp only at he1 hc1
    rcases hq1 : runSink ok s (chunks env c) with ⟨qs1, qn1, qb1⟩
    rw [hq1] at hm1
    obtain ⟨hms, hmb, hmeq, hmle⟩ := hm1
    simp only at hms hmb hmeq hmle
    subst hms hmb
    cases b1 with
    | false =>
      simp only [treeWriteList, hw1, Bool.false_eq_true, if_false, chunksList,
        runSink_append, hq1]
      refine ⟨⟨?_, ?_, ?_, ?_⟩, ?_, ?_⟩ <;>
        first
          | trivial
          | (dsimp only; omega)
          | (intro _; dsimp only; omega)
          | (simp [eraseCacheList, he1]; done)
          | (simp [chunksList, hc1]; done)
    | true =>
      have hn1 : n1 = qn1 := hmeq rfl
      subst hn1
      obtain ⟨hm2, he2, hc2⟩ := treeWriteList_spec ok env cs s1
      rcases hw2 : treeWriteList ok env cs s1 with ⟨cs1, s2, n2, b2⟩
      rw [hw2] at hm2 he2 hc2
      dsimp only at he2 hc2
      rcases hq2 : runSink ok s1 (chunksList env cs) with ⟨qs2, qn2, qb2⟩
      rw [hq2] at hm2
      obtain ⟨hms2, hmb2, hmeq2, hmle2⟩ := hm2
      simp only at hms2 hmb2 hmeq2 hmle2
      subst hms2 hmb2
      simp only [treeWriteList, hw1, if_true, hw2, chunksList, runSink_append, hq1, hq2]
      refine ⟨⟨?_, ?_, ?_, ?_⟩, ?_, ?_⟩ <;>
        first
          | trivial
          | (dsimp only; omega)
          | (intro hq; have := hmeq2 hq; dsimp only; omega)
          | (simp [eraseCacheList, he1, he2]; done)
          | (simp [chunksList, hc1, hc2]; done)

end

/-! ### Sorted attribute rendering (writeOpenTagLeadSorted, base_tag.go) -/

/-- Lookup in the merged name-keyed map built by `writeOpenTagLeadSorted`:
known attributes are inserted first, then custom attributes, so a custom
value wins on a name collision. -/
def mergedGet (b : BaseData) (key : String) : String :=
  match b.customAttrs.find? (fun p => p.1 == key) with
  | some p => p.2
  | none =>
    (((b.attrs.map (fun p => (attrName p.1, p.2))).find? (fun p => p.1 == key)).map (·.2)).getD ""

/-- The merged key multiset: each known attribute's name and each custom
attribute's name, sorted lexicographically (sort.Strings). -/
def mergedKeys (b : BaseData) : List String :=
  List.insertionSort (· ≤ ·)
    (b.attrs.map (fun p => attrName p.1) ++ b.customAttrs.map Prod.fst)

/-- The name/value pairs emitted by `writeOpenTagLeadSorted`, in order:
without custom attributes, the known-attribute ordinals sorted numerically
(sort.Ints); otherwise the merged name-keyed map sorted by name. -/
def sortedPairs (b : BaseData) : List (String × String) :=
  if b.customAttrs.isEmpty then
    (List.insertionSort (· ≤ ·) (b.attrs.map Prod.fst)).map
      (fun k => (attrName k, alGet b.attrs k))
  else
    (mergedKeys b).map (fun k => (k, mergedGet b k))

/-- The strings `writeOpenTagLeadSorted` passes to the writer, in order. -/
def openSortedChunks (b : BaseData) (tagStr : String) : List Str :=
  [['<'], tagStr.toList] ++
    (sortedPairs b).flatMap (fun p => [' '] :: keyValueChunks p.1 p.2)

/-- `writeKeyValue` (htmlgen.go) against the sink: four sequential calls,
accumulating and aborting on the first failure. -/
def writeKeyValueW (ok : Nat → Bool) (key value : String) (s : WState) :
    WState × Nat × Bool :=
  let (s1, n1, b1) := wstring ok s key.toList
  if b1 then
    let (s2, n2, b2) := wstring ok s1 "=\"".toList
    if b2 then
      let (s3, n3, b3) := wstring ok s2 value.toList
      if b3 then
        let (s4, n4, b4) := wstring ok s3 ['"']
        if b4 then (s4, n1 + n2 + n3 + n4, true) else (s4, n1 + n2 + n3, false)
      else (s3, n1 + n2, false)
    else (s2, n1, false)
  else (s1, 0, false)

/-- The attribute loop of `writeOpenTagLeadSorted`: a space and then the
key/value pair for each sorted key; a failing `writeKeyValue`'s partial
count is discarded by the caller (`return n, err`). -/
def writeAttrPairsW (ok : Nat → Bool) : List (String × String) → WState → WState × Nat × Bool
  | [], s => (s, 0, true)
  | p :: ps, s =>
    let (s1, n1, b1) := wstring ok s [' ']
    if b1 then
      let (s2, n2, b2) := writeKeyValueW ok p.1 p.2 s1
      if b2 then
        let (s3, n3, b3) := writeAttrPairsW ok ps s2
        (s3, n1 + n2 + n3, b3)
      else (s2, n1, false)
    else (s1, 0, false)

/-- `writeOpenTagLeadSorted` (base_tag.go) against the sink. -/
def writeOpenSortedW (ok : Nat → Bool) (b : BaseData) (tagStr : String) (s : WState) :
    WState × Nat × Bool :=
  let (s1, n1, b1) := wstring ok s ['<']
  if b1 then
    let (s2, n2, b2) := wstring ok s1 tagStr.toList
    if b2 then
      let (s3, n3, b3) := writeAttrPairsW ok (sortedPairs b) s2
      (s3, n1 + n2 + n3, b3)
    else (s2, n1, false)
  else (s1, 0, false)

/-! ### Pretty rendering (the writePretty methods) -/

/-- `writeIndent` (htmlgen.go): `indent` spaces in one writer call. -/
def indentChunk (indent : Nat) : Str := List.replicate indent ' '

/-- kIndentSpace (htmlgen.go). -/
def kIndentSpace : Nat := 2

mutual

/-- `baseTag.writePretty` (base_tag.go): nothing when hidden; indentation,
the sorted open tag, `>`, then for each non-hidden child a newline and the
child at `indent + kIndentSpace`; when the (unfiltered) child list is
non-empty, a newline and the closing indentation; finally `</name>` in one
call.  A failing child's partial count is discarded. -/
def basePrettyW (ok : Nat → Bool) (env : EnvL) (b : BaseData) (cs : List TagNode)
    (indent : Nat) (s : WState) : WState × Nat × Bool :=
  if b.hidden then (s, 0, true)
  else
    let tagStr := tagName b.tagType
    let (s1, n1, b1) := wstring ok s (indentChunk indent)
    if b1 then
      let (s2, n2, b2) := writeOpenSortedW ok b tagStr s1
      if b2 then
        let (s3, n3, b3) := wstring ok s2 ['>']
        if b3 then
          let (s4, n4, b4) := prettyVisW ok env cs (indent + kIndentSpace) s3
          if b4 then
            if cs.length > 0 then
              let (s5, n5, b5) := wstring ok s4 ['\n']
              if b5 then
                let (s6, n6, b6) := wstring ok s5 (indentChunk indent)
                if b6 then
                  let (s7, n7, b7) := wstring ok s6 ("</" ++ tagStr ++ ">").toList
                  (s7, n1 + n2 + n3 + n4 + n5 + n6 + n7, b7)
                else (s6, n1 + n2 + n3 + n4 + n5, false)
              else (s5, n1 + n2 + n3 + n4, false)
            else
              let (s7, n7, b7) := wstring ok s4 ("</" ++ tagStr ++ ">").toList
              (s7, n1 + n2 + n3 + n4 + n7, b7)
          else (s4, n1 + n2 + n3 + n4, false)
        else (s3, n1 + n2, false)
      else (s2, n1, false)
    else (s1, 0, false)
termination_by (sizeOf cs, 2)

/-- The `writePretty` methods of every node kind (base_tag.go, tag.go,
text_tag_var.go).  None of them mutates the node. -/
def treeWritePretty (ok : Nat → Bool) (env : EnvL) :
    TagNode → Nat → WState → WState × Nat × Bool
  | .textT text, indent, s =>
    let (s1, n1, b1) := wstring ok s (indentChunk indent)
    if b1 then
      let (s2, n2, b2) := wstring ok s1 text
      if b2 then (s2, n1 + n2, true) else (s2, n1, false)
    else (s1, 0, false)
  | .textVar tv, indent, s =>
    let (s1, n1, b1) := wstring ok s (indentChunk indent)
    if b1 then
      let (s2, n2, b2) := ttvWrite ok env tv s1
      if b2 then (s2, n1 + n2, true) else (s2, n1, false)
    else (s1, 0, false)
  | .single b, indent, s =>
    let (s1, n1, b1) := wstring ok s (indentChunk indent)
    if b1 then
      let (s2, n2, b2) := writeOpenSortedW ok b (tagName b.tagType) s1
      if b2 then
        let (s3, n3, b3) := wstring ok s2 (" />".toList)
        (s3, n1 + n2 + n3, b3)
      else (s2, n1, false)
    else (s1, 0, false)
  | .elem b cs, indent, s => basePrettyW ok env b cs indent s
  | .comment _ cs, indent, s =>
    let (s1, n1, b1) := wstring ok s (indentChunk indent)
    if b1 then
      let (s2, n2, b2) := wstring ok s1 ("<!--".toList)
      if b2 then
        let (s3, n3, b3) := prettyAllW ok env cs (indent + kIndentSpace) s2
        if b3 then
          if cs.length > 0 then
            let (s4, n4, b4) := wstring ok s3 ['\n']
            if b4 then
              let (s5, n5, b5) := wstring ok s4 (indentChunk indent)
              if b5 then
                let (s6, n6, b6) := wstring ok s5 ("-->".toList)
                (s6, n1 + n2 + n3 + n4 + n5 + n6, b6)
              else (s5, n1 + n2 + n3 + n4, false)
            else (s4, n1 + n2 + n3, false)
          else
            let (s4, n4, b4) := wstring ok s3 [' ']
            if b4 then
              let (s6, n6, b6) := wstring ok s4 ("-->".toList)
              (s6, n1 + n2 + n3 + n4 + n6, b6)
            else (s4, n1 + n2 + n3, false)
        else (s3, n1 + n2 + n3, false)
      else (s2, n1, false)
    else (s1, 0, false)
  | .nullW _ cs, _, s => nullPrettyW ok env cs s
  | .html b cs, indent, s =>
    let (s1, n1, b1) := wstring ok s (indentChunk indent)
    if b1 then
      let (s2, n2, b2) := wstring ok s1 ("<!DOCTYPE html>\n".toList)
      if b2 then
        let (s3, n3, b3) := basePrettyW ok env b cs indent s2
        if b3 then (s3, n1 + n2 + n3, true) else (s3, n1 + n2, false)
      else (s2, n1, false)
    else (s1, 0, false)
termination_by t _ _ => (sizeOf t, 1)

/-- The child loop of `baseTag.writePretty`: hidden children are skipped
before any separator is written; otherwise a newline and then the child. -/
def prettyVisW (ok : Nat → Bool) (env : EnvL) :
    List TagNode → Nat → WState → WState × Nat × Bool
  | [], _, s => (s, 0, true)
  | c :: cs, indent, s =>
    if c.isHidden then prettyVisW ok env cs indent s
    else
      let (s1, n1, b1) := wstring ok s ['\n']
      if b1 then
        let (s2, n2, b2) := treeWritePretty ok env c indent s1
        if b2 then
          let (s3, n3, b3) := prettyVisW ok env cs indent s2
          (s3, n1 + n2 + n3, b3)
        else (s2, n1, false)
      else (s1, 0, false)
termination_by cs _ _ => (sizeOf cs, 1)

/-- The child loop of `commentTag.writePretty`: no hidden check. -/
def prettyAllW (ok : Nat → Bool) (env : EnvL) :
    List TagNode → Nat → WState → WState × Nat × Bool
  | [], _, s => (s, 0, true)
  | c :: cs, indent, s =>
    let (s1, n1, b1) := wstring ok s ['\n']
    if b1 then
      let (s2, n2, b2) := treeWritePretty ok env c indent s1
      if b2 then
        let (s3, n3, b3) := prettyAllW ok env cs indent s2
        (s3, n1 + n2 + n3, b3)
      else (s2, n1, false)
    else (s1, 0, false)
termination_by cs _ _ => (sizeOf cs, 1)

/-- The child loop of `nullTag.writePretty`: each child at indent 0, a
newline after every child but the last, no hidden check. -/
def nullPrettyW (ok : Nat → Bool) (env : EnvL) :
    List TagNode → WState → WState × Nat × Bool
  | [], s => (s, 0, true)
  | [c], s =>
    let (s1, n1, b1) := treeWritePretty ok env c 0 s
    if b1 then (s1, n1, true) else (s1, 0, false)
  | c :: c2 :: cs, s =>
    let (s1, n1, b1) := treeWritePretty ok env c 0 s
    if b1 then
      let (s2, n2, b2) := wstring ok s1 ['\n']
      if b2 then
        let (s3, n3, b3) := nullPrettyW ok env (c2 :: cs) s2
        (s3, n1 + n2 + n3, b3)
      else (s2, n1, false)
    else (s1, 0, false)
termination_by cs _ => (sizeOf cs, 1)

end

mutual

/-- The strings a pretty render passes to the writer, in order. -/
def prettyChunks (env : EnvL) : TagNode → Nat → List Str
  | .textT text, indent => [indentChunk indent, text]
  | .textVar tv, indent => indentChunk indent :: ttvChunks env tv
  | .single b, indent =>
    indentChunk indent :: (openSortedChunks b (tagName b.tagType) ++ [" />".toList])
  | .elem b cs, indent => basePrettyChunks env b cs indent
  | .comment _ cs, indent =>
    indentChunk indent :: "<!--".toList ::
      (prettyAllChunks env cs (indent + kIndentSpace) ++
        (if cs.length > 0 then [['\n'], indentChunk indent] else [[' ']]) ++
        ["-->".toList])
  | .nullW _ cs, _ => nullPrettyChunks env cs
  | .html b cs, indent =>
    indentChunk indent :: "<!DOCTYPE html>\n".toList :: basePrettyChunks env b cs indent

def basePrettyChunks (env : EnvL) (b : BaseData) (cs : List TagNode) (indent : Nat) :
    List Str :=
  if b.hidden then []
  else
    indentChunk indent ::
      (openSortedChunks b (tagName b.tagType) ++ [['>']] ++
        prettyVisChunks env cs (indent + kIndentSpace) ++
        (if cs.length > 0 then [['\n'], indentChunk indent] else []) ++
        [("</" ++ tagName b.tagType ++ ">").toList])

def prettyVisChunks (env : EnvL) : List TagNode → Nat → List Str
  | [], _ => []
  | c :: cs, indent =>
    if c.isHidden then prettyVisChunks env cs indent
    else ['\n'] :: (prettyChunks env c indent ++ prettyVisChunks env cs indent)

def prettyAllChunks (env : EnvL) : List TagNode → Nat → List Str
  | [], _ => []
  | c :: cs, indent => ['\n'] :: (prettyChunks env c indent ++ prettyAllChunks env cs indent)

def nullPrettyChunks (env : EnvL) : List TagNode → List Str
  | [] => []
  | [c] => prettyChunks env c 0
  | c :: c2 :: cs => prettyChunks env c 0 ++ [['\n']] ++ nullPrettyChunks env (c2 :: cs)

end

theorem runSink_nil (ok : Nat → Bool) (s : WState) : runSink ok s [] = (s, 0, true) := rfl

theorem runSink_cons (ok : Nat → Bool) (s : WState) (c : Str) (cs : List Str) :
    runSink ok s (c :: cs) =
      (if (wstring ok s c).2.2 then
        ((runSink ok (wstring ok s c).1 cs).1,
          (wstring ok s c).2.1 + (runSink ok (wstring ok s c).1 cs).2.1,
          (runSink ok (wstring ok s c).1 cs).2.2)
      else ((wstring ok s c).1, 0, false)) := by
  by_cases h : ok s.calls <;> simp [runSink, wstring, h]

theorem writeKeyValueW_spec (ok : Nat → Bool) (key value : String) (s : WState) :
    SinkMatch (writeKeyValueW ok key value s) (runSink ok s (keyValueChunks key value)) := by
  by_cases h1 : ok s.calls
  · by_cases h2 : ok (s.calls + 1)
    · by_cases h3 : ok (s.calls + 1 + 1)
      · by_cases h4 : ok (s.calls + 1 + 1 + 1)
        · simp only [writeKeyValueW, keyValueChunks, runSink, wstring, h1, h2, h3, h4,
            if_true]
          refine ⟨?_, ?_, ?_, ?_⟩ <;>
            first
              | trivial
              | omega
              | (intro _; omega)
              | (simp; done)
              | (simp; omega)
              | (intro _; simp; done)
              | (intro _; simp; omega)
        · simp only [writeKeyValueW, keyValueChunks, runSink, wstring, h1, h2, h3, h4,
            if_true]
          refine ⟨?_, ?_, ?_, ?_⟩ <;>
            first
              | trivial
              | omega
              | (intro _; omega)
              | (simp; done)
              | (simp; omega)
              | (intro _; simp; done)
              | (intro _; simp; omega)
      · simp only [writeKeyValueW, keyValueChunks, runSink, wstring, h1, h2, h3, if_true]
        refine ⟨?_, ?_, ?_, ?_⟩ <;>
          first
            | trivial
            | omega
            | (intro _; omega)
            | (simp; done)
            | (simp; omega)
            | (intro _; simp; done)
            | (intro _; simp; omega)
    · simp only [writeKeyValueW, keyValueChunks, runSink, wstring, h1, h2, if_true]
      refine ⟨?_, ?_, ?_, ?_⟩ <;>
        first
          | trivial
          | omega
          | (intro _; omega)
          | (simp; done)
          | (simp; omega)
          | (intro _; simp; done)
          | (intro _; simp; omega)
  · simp only [writeKeyValueW, keyValueChunks, runSink, wstring, h1]
    refine ⟨?_, ?_, ?_, ?_⟩ <;>
      first
        | trivial
        | omega
        | (intro _; omega)
        | (simp; done)
        | (simp; omega)
        | (intro _; simp; done)
        | (intro _; simp; omega)

theorem writeAttrPairsW_spec (ok : Nat → Bool) (ps : List (String × String)) : ∀ s : WState,
    SinkMatch (writeAttrPairsW ok ps s)
      (runSink ok s (ps.flatMap (fun p => [' '] :: keyValueChunks p.1 p.2))) := by
  induction ps with
  | nil =>
    intro s
    simp [writeAttrPairsW, runSink, SinkMatch]
  | cons p ps ih =>
    intro s
    have e0 : (p :: ps).flatMap (fun p => [' '] :: keyValueChunks p.1 p.2) =
        [' '] :: (keyValueChunks p.1 p.2 ++
          ps.flatMap (fun p => [' '] :: keyValueChunks p.1 p.2)) := by simp
    rw [e0, runSink_cons]
    by_cases h1 : ok s.calls
    · simp only [wstring, h1, if_true]
      rw [runSink_append]
      have hkm := writeKeyValueW_spec ok p.1 p.2 ⟨s.calls + 1, s.out ++ [' ']⟩
      rcases hk : writeKeyValueW ok p.1 p.2 ⟨s.calls + 1, s.out ++ [' ']⟩ with ⟨s2, n2, b2⟩
      rw [hk] at hkm
      rcases hq : runSink ok ⟨s.calls + 1, s.out ++ [' ']⟩ (keyValueChunks p.1 p.2)
        with ⟨qs2, qn2, qb2⟩
      rw [hq] at hkm
      obtain ⟨hms, hmb, hmeq, hmle⟩ := hkm
      simp only at hms hmb hmeq hmle
      subst hms hmb
      cases b2 with
      | false =>
        simp only [writeAttrPairsW, wstring, h1, if_true, hk, Bool.false_eq_true, if_false]
        refine ⟨?_, ?_, ?_, ?_⟩ <;>
          first
            | trivial
            | omega
            | (intro _; omega)
            | (simp; done)
            | (simp; omega)
            | (intro _; simp; done)
            | (intro _; simp; omega)
      | true =>
        have hn2 : n2 = qn2 := hmeq rfl
        subst hn2
        have hm3 := ih s2
        rcases hw3 : writeAttrPairsW ok ps s2 with ⟨s3, n3, b3⟩
        rw [hw3] at hm3
        rcases hq3 : runSink ok s2 (ps.flatMap (fun p => [' '] :: keyValueChunks p.1 p.2))
          with ⟨qs3, qn3, qb3⟩
        rw [hq3] at hm3
        obtain ⟨hms3, hmb3, hmeq3, hmle3⟩ := hm3
        simp only at hms3 hmb3 hmeq3 hmle3
        subst hms3 hmb3
        simp only [writeAttrPairsW, wstring, h1, if_true, hk, hw3]
        refine ⟨?_, ?_, ?_, ?_⟩ <;>
          first
            | trivial
            | omega
            | (simp; done)
            | (simp; omega)
            | (intro hx; have h9 := hmeq3 hx; omega)
            | (intro hx; have h9 := hmeq3 hx; simp; omega)
            | (intro hx; have h9 := hmeq3 hx; simp; done)
    · simp only [writeAttrPairsW, wstring, h1]
      refine ⟨?_, ?_, ?_, ?_⟩ <;>
        first
          | trivial
          | omega
          | (intro _; omega)
          | (simp; done)
          | (simp; omega)
          | (intro _; simp; done)
          | (intro _; simp; omega)

theorem writeOpenSortedW_spec (ok : Nat → Bool) (b : BaseData) (tagStr : String)
    (s : WState) :
    SinkMatch (writeOpenSortedW ok b tagStr s)
      (runSink ok s (openSortedChunks b tagStr)) := by
  have e0 : openSortedChunks b tagStr =
      ['<'] :: (tagStr.toList ::
        (sortedPairs b).flatMap (fun p => [' '] :: keyValueChunks p.1 p.2)) := by
    simp [openSortedChunks]
  rw [e0, runSink_cons]
  by_cases h1 : ok s.calls
  · simp only [wstring, h1, if_true]
    rw [runSink_cons]
    by_cases h2 : ok (s.calls + 1)
    · simp only [wstring, h2, if_true]
      have hm3 := writeAttrPairsW_spec ok (sortedPairs b)
        ⟨s.calls + 1 + 1, s.out ++ ['<'] ++ tagStr.toList⟩
      rcases hw3 : writeAttrPairsW ok (sortedPairs b)
          ⟨s.calls + 1 + 1, s.out ++ ['<'] ++ tagStr.toList⟩ with ⟨s3, n3, b3⟩
      rw [hw3] at hm3
      rcases hq3 : runSink ok ⟨s.calls + 1 + 1, s.out ++ ['<'] ++ tagStr.toList⟩
          ((sortedPairs b).flatMap (fun p => [' '] :: keyValueChunks p.1 p.2))
        with ⟨qs3, qn3, qb3⟩
      rw [hq3] at hm3
      obtain ⟨hms3, hmb3, hmeq3, hmle3⟩ := hm3
      simp only at hms3 hmb3 hmeq3 hmle3
      subst hms3 hmb3
      have e1 : (⟨(⟨s.calls + 1, s.out ++ ['<']⟩ : WState).calls + 1,
          (⟨s.calls + 1, s.out ++ ['<']⟩ : WState).out ++ tagStr.toList⟩ : WState) =
          ⟨s.calls + 1 + 1, s.out ++ ['<'] ++ tagStr.toList⟩ := rfl
      simp only [writeOpenSortedW, wstring, h1, h2, if_true, e1, hw3, hq3]
      refine ⟨?_, ?_, ?_, ?_⟩ <;>
        first
          | trivial
          | omega
          | (simp; done)
          | (simp; omega)
          | (intro hx; have h9 := hmeq3 hx; omega)
          | (intro hx; have h9 := hmeq3 hx; simp; omega)
          | (intro hx; have h9 := hmeq3 hx; simp; done)
    · simp only [writeOpenSortedW, wstring, h1, h2, if_true]
      refine ⟨?_, ?_, ?_, ?_⟩ <;>
        first
          | trivial
          | omega
          | (intro _; omega)
          | (simp; done)
          | (simp; omega)
          | (intro _; simp; done)
          | (intro _; simp; omega)
  · simp only [writeOpenSortedW, wstring, h1]
    refine ⟨?_, ?_, ?_, ?_⟩ <;>
      first
        | trivial
        | omega
        | (intro _; omega)
        | (simp; done)
        | (simp; omega)
        | (intro _; simp; done)
        | (intro _; simp; omega)

mutual

theorem basePrettyW_spec (ok : Nat → Bool) (env : EnvL) (b : BaseData) (cs : List TagNode)
    (indent : Nat) (s : WState) :
    SinkMatch (basePrettyW ok env b cs indent s)
      (runSink ok s (basePrettyChunks env b cs indent)) := by
  by_cases hh : b.hidden
  · simp [basePrettyW, basePrettyChunks, hh, runSink, SinkMatch]
  · by_cases h1 : ok s.calls
    · have hosm := writeOpenSortedW_spec ok b (tagName b.tagType)
        ⟨s.calls + 1, s.out ++ indentChunk indent⟩
      rcases hos : writeOpenSortedW ok b (tagName b.tagType)
          ⟨s.calls + 1, s.out ++ indentChunk indent⟩ with ⟨s2, n2, b2⟩
      rw [hos] at hosm
      rcases hq2 : runSink ok ⟨s.calls + 1, s.out ++ indentChunk indent⟩
          (openSortedChunks b (tagName b.tagType)) with ⟨qs2, qn2, qb2⟩
      rw [hq2] at hosm
      obtain ⟨hms, hmb, hmeq, hmle⟩ := hosm
      simp only at hms hmb hmeq hmle
      subst hms hmb
      cases b2 with
      | false =>
        simp only [basePrettyW, basePrettyChunks, hh, if_false, Bool.false_eq_true,
          wstring, h1, if_true, if_false, hos, runSink_nil, runSink_cons, runSink_append, hq2,
          List.cons_append, List.singleton_append, List.nil_append]
        refine ⟨?_, ?_, ?_, ?_⟩ <;>
          first
            | trivial
            | omega
            | (intro _; omega)
            | (simp; done)
            | (simp; omega)
            | (intro _; simp; done)
            | (intro _; simp; omega)
      | true =>
        have hn2 : n2 = qn2 := hmeq rfl
        subst hn2
        by_cases h3 : ok s2.calls
        · have hvm := prettyVisW_spec ok env cs (indent + kIndentSpace)
            ⟨s2.calls + 1, s2.out ++ ['>']⟩
          rcases hv : prettyVisW ok env cs (indent + kIndentSpace)
              ⟨s2.calls + 1, s2.out ++ ['>']⟩ with ⟨s4, n4, b4⟩
          rw [hv] at hvm
          rcases hq4 : runSink ok ⟨s2.calls + 1, s2.out ++ ['>']⟩
              (prettyVisChunks env cs (indent + kIndentSpace)) with ⟨qs4, qn4, qb4⟩
          rw [hq4] at hvm
          obtain ⟨hms4, hmb4, hmeq4, hmle4⟩ := hvm
          simp only at hms4 hmb4 hmeq4 hmle4
          subst hms4 hmb4
          cases b4 with
          | false =>
            simp only [basePrettyW, basePrettyChunks, hh, if_false, Bool.false_eq_true,
              wstring, h1, h3, if_true, if_false, hos, hv, runSink_nil, runSink_cons, runSink_append, hq2, hq4,
              List.cons_append, List.singleton_append, List.nil_append]
            refine ⟨?_, ?_, ?_, ?_⟩ <;>
              first
                | trivial
                | omega
                | (intro _; omega)
                | (simp; done)
                | (simp; omega)
                | (intro _; simp; done)
                | (intro _; simp; omega)
          | true =>
            have hn4 : n4 = qn4 := hmeq4 rfl
            subst hn4
            by_cases hlen : cs.length > 0
            · by_cases h5 : ok s4.calls
              · by_cases h6 : ok (s4.calls + 1)
                · by_cases h7 : ok (s4.calls + 1 + 1)
                  · simp only [basePrettyW, basePrettyChunks, hh, if_false,
                      Bool.false_eq_true, wstring, h1, h3, h5, h6, h7, hlen, if_true, if_false,
                      hos, hv, runSink_nil, runSink_cons, runSink_append, hq2, hq4, List.cons_append,
                      List.singleton_append, List.nil_append]
                    refine ⟨?_, ?_, ?_, ?_⟩ <;>
                      first
                        | trivial
                        | omega
                        | (intro _; omega)
                        | (simp; done)
                        | (simp; omega)
                        | (intro _; simp; done)
                        | (intro _; simp; omega)
                  · simp only [basePrettyW, basePrettyChunks, hh, if_false,
                      Bool.false_eq_true, wstring, h1, h3, h5, h6, h7, hlen, if_true, if_false,
                      hos, hv, runSink_nil, runSink_cons, runSink_append, hq2, hq4, List.cons_append,
                      List.singleton_append, List.nil_append]
                    refine ⟨?_, ?_, ?_, ?_⟩ <;>
                      first
                        | trivial
                        | omega
                        | (intro _; omega)
                        | (simp; done)
                        | (simp; omega)
                        | (intro _; simp; done)
                        | (intro _; simp; omega)
                · simp only [basePrettyW, basePrettyChunks, hh, if_false,
                    Bool.false_eq_true, wstring, h1, h3, h5, h6, hlen, if_true, if_false,
                    hos, hv, runSink_nil, runSink_cons, runSink_append, hq2, hq4, List.cons_append,
                    List.singleton_append, List.nil_append]
                  refine ⟨?_, ?_, ?_, ?_⟩ <;>
                    first
                      | trivial
                      | omega
                      | (intro _; omega)
                      | (simp; done)
                      | (simp; omega)
                      | (intro _; simp; done)
                      | (intro _; simp; omega)
              · simp only [basePrettyW, basePrettyChunks, hh, if_false,
                  Bool.false_eq_true, wstring, h1, h3, h5, hlen, if_true, if_false,
                  hos, hv, runSink_nil, runSink_cons, runSink_append, hq2, hq4, List.cons_append,
                  List.singleton_append, List.nil_append]
                refine ⟨?_, ?_, ?_, ?_⟩ <;>
                  first
                    | trivial
                    | omega
                    | (intro _; omega)
                    | (simp; done)
                    | (simp; omega)
                    | (intro _; simp; done)
                    | (intro _; simp; omega)
            · by_cases h7 : ok s4.calls
              · simp only [basePrettyW, basePrettyChunks, hh, if_false,
                  Bool.false_eq_true, wstring, h1, h3, h7, hlen, if_true, if_false,
                  hos, hv, runSink_nil, runSink_cons, runSink_append, hq2, hq4, List.cons_append,
                  List.singleton_append, List.nil_append]
                refine ⟨?_, ?_, ?_, ?_⟩ <;>
                  first
                    | trivial
                    | omega
                    | (intro _; omega)
                    | (simp; done)
                    | (simp; omega)
                    | (intro _; simp; done)
                    | (intro _; simp; omega)
              · simp only [basePrettyW, basePrettyChunks, hh, if_false,
                  Bool.false_eq_true, wstring, h1, h3, h7, hlen, if_true, if_false,
                  hos, hv, runSink_nil, runSink_cons, runSink_append, hq2, hq4, List.cons_append,
                  List.singleton_append, List.nil_append]
                refine ⟨?_, ?_, ?_, ?_⟩ <;>
                  first
                    | trivial
                    | omega
                    | (intro _; omega)
                    | (simp; done)
                    | (simp; omega)
                    | (intro _; simp; done)
                    | (intro _; simp; omega)
        · simp only [basePrettyW, basePrettyChunks, hh, if_false, Bool.false_eq_true,
            wstring, h1, h3, if_true, if_false, hos, runSink_nil, runSink_cons, runSink_append, hq2,
            List.cons_append, List.singleton_append, List.nil_append]
          refine ⟨?_, ?_, ?_, ?_⟩ <;>
            first
              | trivial
              | omega
              | (intro _; omega)
              | (simp; done)
              | (simp; omega)
              | (intro _; simp; done)
              | (intro _; simp; omega)
    · simp only [basePrettyW, basePrettyChunks, hh, if_false, Bool.false_eq_true,
        wstring, h1, runSink_nil, runSink_cons, runSink_append, List.cons_append,
        List.singleton_append, List.nil_append]
      refine ⟨?_, ?_, ?_, ?_⟩ <;>
        first
          | trivial
          | omega
          | (intro _; omega)
          | (simp; done)
          | (simp; omega)
          | (intro _; simp; done)
          | (intro _; simp; omega)
termination_by (sizeOf cs, 2)

theorem treeWritePretty_spec (ok : Nat → Bool) (env : EnvL) (t : TagNode) (indent : Nat)
    (s : WState) :
    SinkMatch (treeWritePretty ok env t indent s)
      (runSink ok s (prettyChunks env t indent)) := by
  cases t with
  | textT text =>
    by_cases h1 : ok s.calls
    · by_cases h2 : ok (s.calls + 1) <;>
        simp [treeWritePretty, prettyChunks, runSink, wstring, h1, h2, SinkMatch]
    · simp [treeWritePretty, prettyChunks, runSink, wstring, h1, SinkMatch]
  | textVar tv =>
    by_cases h1 : ok s.calls
    · simp only [treeWritePretty, prettyChunks, runSink_nil, runSink_cons, wstring, h1, if_true, if_false,
        ttvWrite_runSink]
      rcases hq : runSink ok ⟨s.calls + 1, s.out ++ indentChunk indent⟩ (ttvChunks env tv)
        with ⟨qs, qn, qb⟩
      simp only [hq]
      cases qb <;>
        refine ⟨?_, ?_, ?_, ?_⟩ <;>
          first
            | trivial
            | omega
            | (intro _; omega)
            | (simp; done)
            | (simp; omega)
            | (intro _; simp; done)
            | (intro _; simp; omega)
    · simp only [treeWritePretty, prettyChunks, runSink_nil, runSink_cons, wstring, h1]
      refine ⟨?_, ?_, ?_, ?_⟩ <;>
        first
          | trivial
          | omega
          | (intro _; omega)
          | (simp; done)
          | (simp; omega)
          | (intro _; simp; done)
          | (intro _; simp; omega)
  | single b =>
    by_cases h1 : ok s.calls
    · have hosm := writeOpenSortedW_spec ok b (tagName b.tagType)
        ⟨s.calls + 1, s.out ++ indentChunk indent⟩
      rcases hos : writeOpenSortedW ok b (tagName b.tagType)
          ⟨s.calls + 1, s.out ++ indentChunk indent⟩ with ⟨s2, n2, b2⟩
      rw [hos] at hosm
      rcases hq2 : runSink ok ⟨s.calls + 1, s.out ++ indentChunk indent⟩
          (openSortedChunks b (tagName b.tagType)) with ⟨qs2, qn2, qb2⟩
      rw [hq2] at hosm
      obtain ⟨hms, hmb, hmeq, hmle⟩ := hosm
      simp only at hms hmb hmeq hmle
      subst hms hmb
      cases b2 with
      | false =>
        simp only [treeWritePretty, prettyChunks, runSink_nil, runSink_cons, runSink_append, wstring,
          h1, if_true, if_false, hos, hq2, Bool.false_eq_true, if_false, List.cons_append,
          List.singleton_append, List.nil_append]
        refine ⟨?_, ?_, ?_, ?_⟩ <;>
          first
            | trivial
            | omega
            | (intro _; omega)
            | (simp; done)
            | (simp; omega)
            | (intro _; simp; done)
            | (intro _; simp; omega)
      | true =>
        have hn2 : n2 = qn2 := hmeq rfl
        subst hn2
        by_cases h3 : ok s2.calls
        · simp only [treeWritePretty, prettyChunks, runSink_nil, runSink_cons, runSink_append, wstring,
            h1, h3, if_true, if_false, hos, hq2, List.cons_append, List.singleton_append,
            List.nil_append]
          refine ⟨?_, ?_, ?_, ?_⟩ <;>
            first
              | trivial
              | omega
              | (intro _; omega)
              | (simp; done)
              | (simp; omega)
              | (intro _; simp; done)
              | (intro _; simp; omega)
        · simp only [treeWritePretty, prettyChunks, runSink_nil, runSink_cons, runSink_append, wstring,
            h1, h3, if_true, if_false, hos, hq2, List.cons_append, List.singleton_append,
            List.nil_append]
          refine ⟨?_, ?_, ?_, ?_⟩ <;>
            first
              | trivial
              | omega
              | (intro _; omega)
              | (simp; done)
              | (simp; omega)
              | (intro _; simp; done)
              | (intro _; simp; omega)
    · simp only [treeWritePretty, prettyChunks, runSink_nil, runSink_cons, wstring, h1]
      refine ⟨?_, ?_, ?_, ?_⟩ <;>
        first
          | trivial
          | omega
          | (intro _; omega)
          | (simp; done)
          | (simp; omega)
          | (intro _; simp; done)
          | (intro _; simp; omega)
  | elem b cs =>
    have h := basePrettyW_spec ok env b cs indent s
    simp only [treeWritePretty, prettyChunks]
    exact h
  | nullW b cs =>
    have h := nullPrettyW_spec ok env cs s
    simp only [treeWritePretty, prettyChunks]
    exact h
  | comment b cs =>
    by_cases h1 : ok s.calls
    · by_cases h2 : ok (s.calls + 1)
      · have ham := prettyAllW_spec ok env cs (indent + kIndentSpace)
          ⟨s.calls + 1 + 1, s.out ++ indentChunk indent ++ "<!--".toList⟩
        rcases ha : prettyAllW ok env cs (indent + kIndentSpace)
            ⟨s.calls + 1 + 1, s.out ++ indentChunk indent ++ "<!--".toList⟩
          with ⟨s3, n3, b3⟩
        rw [ha] at ham
        rcases hq3 : runSink ok ⟨s.calls + 1 + 1, s.out ++ indentChunk indent ++ "<!--".toList⟩
            (prettyAllChunks env cs (indent + kIndentSpace)) with ⟨qs3, qn3, qb3⟩
        rw [hq3] at ham
        obtain ⟨hms3, hmb3, hmeq3, hmle3⟩ := ham
        simp only at hms3 hmb3 hmeq3 hmle3
        subst hms3 hmb3
        have e1 : (⟨(⟨s.calls + 1, s.out ++ indentChunk indent⟩ : WState).calls + 1,
            (⟨s.calls + 1, s.out ++ indentChunk indent⟩ : WState).out ++ "<!--".toList⟩ : WState) =
            ⟨s.calls + 1 + 1, s.out ++ indentChunk indent ++ "<!--".toList⟩ := rfl
        cases b3 with
        | false =>
          simp only [treeWritePretty, prettyChunks, runSink_nil, runSink_cons, runSink_append, wstring,
            h1, h2, if_true, if_false, e1, ha, hq3, Bool.false_eq_true, if_false, List.cons_append,
            List.singleton_append, List.nil_append]
          refine ⟨?_, ?_, ?_, ?_⟩ <;>
            first
              | trivial
              | omega
              | (intro _; omega)
              | (simp; done)
              | (simp; omega)
              | (intro _; simp; done)
              | (intro _; simp; omega)
        | true =>
          have hn3 : n3 = qn3 := hmeq3 rfl
          subst hn3
          by_cases hlen : cs.length > 0
          · by_cases h4 : ok s3.calls
            · by_cases h5 : ok (s3.calls + 1)
              · by_cases h6 : ok (s3.calls + 1 + 1)
                · simp only [treeWritePretty, prettyChunks, runSink_nil, runSink_cons, runSink_append,
                    wstring, h1, h2, h4, h5, h6, hlen, if_true, if_false, e1, ha, hq3,
                    List.cons_append, List.singleton_append, List.nil_append]
                  refine ⟨?_, ?_, ?_, ?_⟩ <;>
                    first
                      | trivial
                      | omega
                      | (intro _; omega)
                      | (simp; done)
                      | (simp; omega)
                      | (intro _; simp; done)
                      | (intro _; simp; omega)
                · simp only [treeWritePretty, prettyChunks, runSink_nil, runSink_cons, runSink_append,
                    wstring, h1, h2, h4, h5, h6, hlen, if_true, if_false, e1, ha, hq3,
                    List.cons_append, List.singleton_append, List.nil_append]
                  refine ⟨?_, ?_, ?_, ?_⟩ <;>
                    first
                      | trivial
                      | omega
                      | (intro _; omega)
                      | (simp; done)
                      | (simp; omega)
                      | (intro _; simp; done)
                      | (intro _; simp; omega)
              · simp only [treeWritePretty, prettyChunks, runSink_nil, runSink_cons, runSink_append,
                  wstring, h1, h2, h4, h5, hlen, if_true, if_false, e1, ha, hq3,
                  List.cons_append, List.singleton_append, List.nil_append]
                refine ⟨?_, ?_, ?_, ?_⟩ <;>
                  first
                    | trivial
                    | omega
                    | (intro _; omega)
                    | (simp; done)
                    | (simp; omega)
                    | (intro _; simp; done)
                    | (intro _; simp; omega)
            · simp only [treeWritePretty, prettyChunks, runSink_nil, runSink_cons, runSink_append,
                wstring, h1, h2, h4, hlen, if_true, if_false, e1, ha, hq3,
                List.cons_append, List.singleton_append, List.nil_append]
              refine ⟨?_, ?_, ?_, ?_⟩ <;>
                first
                  | trivial
                  | omega
                  | (intro _; omega)
                  | (simp; done)
                  | (simp; omega)
                  | (intro _; simp; done)
                  | (intro _; simp; omega)
          · by_cases h4 : ok s3.calls
            · by_cases h6 : ok (s3.calls + 1)
              · simp only [treeWritePretty, prettyChunks, runSink_nil, runSink_cons, runSink_append,
                  wstring, h1, h2, h4, h6, hlen, if_true, if_false, e1, ha, hq3,
                  List.cons_append, List.singleton_append, List.nil_append]
                refine ⟨?_, ?_, ?_, ?_⟩ <;>
                  first
                    | trivial
                    | omega
                    | (intro _; omega)
                    | (simp; done)
                    | (simp; omega)
                    | (intro _; simp; done)
                    | (intro _; simp; omega)
              · simp only [treeWritePretty, prettyChunks, runSink_nil, runSink_cons, runSink_append,
                  wstring, h1, h2, h4, h6, hlen, if_true, if_false, e1, ha, hq3,
                  List.cons_append, List.singleton_append, List.nil_append]
                refine ⟨?_, ?_, ?_, ?_⟩ <;>
                  first
                    | trivial
                    | omega
                    | (intro _; omega)
                    | (simp; done)
                    | (simp; omega)
                    | (intro _; simp; done)
                    | (intro _; simp; omega)
            · simp only [treeWritePretty, prettyChunks, runSink_nil, runSink_cons, runSink_append,
                wstring, h1, h2, h4, hlen, if_true, if_false, e1, ha, hq3,
                List.cons_append, List.singleton_append, List.nil_append]
              refine ⟨?_, ?_, ?_, ?_⟩ <;>
                first
                  | trivial
                  | omega
                  | (intro _; omega)
                  | (simp; done)
                  | (simp; omega)
                  | (intro _; simp; done)
                  | (intro _; simp; omega)
      · simp only [treeWritePretty, prettyChunks, runSink_nil, runSink_cons, wstring, h1, h2, if_true, if_false,
          List.cons_append, List.singleton_append, List.nil_append]
        refine ⟨?_, ?_, ?_, ?_⟩ <;>
          first
            | trivial
            | omega
            | (intro _; omega)
            | (simp; done)
            | (simp; omega)
            | (intro _; simp; done)
            | (intro _; simp; omega)
    · simp only [treeWritePretty, prettyChunks, runSink_nil, runSink_cons, wstring, h1]
      refine ⟨?_, ?_, ?_, ?_⟩ <;>
        first
          | trivial
          | omega
          | (intro _; omega)
          | (simp; done)
          | (simp; omega)
          | (intro _; simp; done)
          | (intro _; simp; omega)
  | html b cs =>
    by_cases h1 : ok s.calls
    · by_cases h2 : ok (s.calls + 1)
      · have hbm := basePrettyW_spec ok env b cs indent
          ⟨s.calls + 1 + 1, s.out ++ indentChunk indent ++ "<!DOCTYPE html>\n".toList⟩
        rcases hb : basePrettyW ok env b cs indent
            ⟨s.calls + 1 + 1, s.out ++ indentChunk indent ++ "<!DOCTYPE html>\n".toList⟩
          with ⟨s3, n3, b3⟩
        rw [hb] at hbm
        rcases hq3 : runSink ok
            ⟨s.calls + 1 + 1, s.out ++ indentChunk indent ++ "<!DOCTYPE html>\n".toList⟩
            (basePrettyChunks env b cs indent) with ⟨qs3, qn3, qb3⟩
        rw [hq3] at hbm
        obtain ⟨hms3, hmb3, hmeq3, hmle3⟩ := hbm
        simp only at hms3 hmb3 hmeq3 hmle3
        subst hms3 hmb3
        have e1 : (⟨(⟨s.calls + 1, s.out ++ indentChunk indent⟩ : WState).calls + 1,
            (⟨s.calls + 1, s.out ++ indentChunk indent⟩ : WState).out ++
              "<!DOCTYPE html>\n".toList⟩ : WState) =
            ⟨s.calls + 1 + 1, s.out ++ indentChunk indent ++ "<!DOCTYPE html>\n".toList⟩ := rfl
        cases b3 with
        | false =>
          simp only [treeWritePretty, prettyChunks, runSink_nil, runSink_cons, wstring, h1, h2,
            if_true, if_false, e1, hb, hq3, Bool.false_eq_true, if_false]
          refine ⟨?_, ?_, ?_, ?_⟩ <;>
            first
              | trivial
              | omega
              | (intro _; omega)
              | (simp; done)
              | (simp; omega)
              | (intro _; simp; done)
              | (intro _; simp; omega)
        | true =>
          have hn3 : n3 = qn3 := hmeq3 rfl
          subst hn3
          simp only [treeWritePretty, prettyChunks, runSink_nil, runSink_cons, wstring, h1, h2,
            if_true, if_false, e1, hb, hq3]
          refine ⟨?_, ?_, ?_, ?_⟩ <;>
            first
              | trivial
              | omega
              | (intro _; omega)
              | (simp; done)
              | (simp; omega)
              | (intro _; simp; done)
              | (intro _; simp; omega)
      · simp only [treeWritePretty, prettyChunks, runSink_nil, runSink_cons, wstring, h1, h2, if_true, if_false]
        refine ⟨?_, ?_, ?_, ?_⟩ <;>
          first
            | trivial
            | omega
            | (intro _; omega)
            | (simp; done)
            | (simp; omega)
            | (intro _; simp; done)
            | (intro _; simp; omega)
    · simp only [treeWritePretty, prettyChunks, runSink_nil, runSink_cons, wstring, h1]
      refine ⟨?_, ?_, ?_, ?_⟩ <;>
        first
          | trivial
          | omega
          | (intro _; omega)
          | (simp; done)
          | (simp; omega)
          | (intro _; simp; done)
          | (intro _; simp; omega)
termination_by (sizeOf t, 1)

theorem prettyVisW_spec (ok : Nat → Bool) (env : EnvL) (cs : List TagNode) (indent : Nat)
    (s : WState) :
    SinkMatch (prettyVisW ok env cs indent s)
      (runSink ok s (prettyVisChunks env cs indent)) := by
  cases cs with
  | nil => simp [prettyVisW, prettyVisChunks, runSink, SinkMatch]
  | cons c cs =>
    by_cases hhid : c.isHidden
    · have h := prettyVisW_spec ok env cs indent s
      simp only [prettyVisW, prettyVisChunks, hhid, if_true, if_false]
      exact h
    · by_cases h1 : ok s.calls
      · have hcm := treeWritePretty_spec ok env c indent ⟨s.calls + 1, s.out ++ ['\n']⟩
        rcases hc : treeWritePretty ok env c indent ⟨s.calls + 1, s.out ++ ['\n']⟩
          with ⟨s2, n2, b2⟩
        rw [hc] at hcm
        rcases hq2 : runSink ok ⟨s.calls + 1, s.out ++ ['\n']⟩ (prettyChunks env c indent)
          with ⟨qs2, qn2, qb2⟩
        rw [hq2] at hcm
        obtain ⟨hms, hmb, hmeq, hmle⟩ := hcm
        simp only at hms hmb hmeq hmle
        subst hms hmb
        cases b2 with
        | false =>
          simp only [prettyVisW, prettyVisChunks, hhid, if_false, Bool.false_eq_true,
            runSink_nil, runSink_cons, runSink_append, wstring, h1, if_true, if_false, hc, hq2,
            List.cons_append, List.singleton_append, List.nil_append]
          refine ⟨?_, ?_, ?_, ?_⟩ <;>
            first
              | trivial
              | omega
              | (intro _; omega)
              | (simp; done)
              | (simp; omega)
              | (intro _; simp; done)
              | (intro _; simp; omega)
        | true =>
          have hn2 : n2 = qn2 := hmeq rfl
          subst hn2
          have hrm := prettyVisW_spec ok env cs indent s2
          rcases hr : prettyVisW ok env cs indent s2 with ⟨s3, n3, b3⟩
          rw [hr] at hrm
          rcases hq3 : runSink ok s2 (prettyVisChunks env cs indent) with ⟨qs3, qn3, qb3⟩
          rw [hq3] at hrm
          obtain ⟨hms3, hmb3, hmeq3, hmle3⟩ := hrm
          simp only at hms3 hmb3 hmeq3 hmle3
          subst hms3 hmb3
          simp only [prettyVisW, prettyVisChunks, hhid, if_false, Bool.false_eq_true,
            runSink_nil, runSink_cons, runSink_append, wstring, h1, if_true, if_false, hc, hr, hq2, hq3,
            List.cons_append, List.singleton_append, List.nil_append]
          refine ⟨?_, ?_, ?_, ?_⟩ <;>
            first
              | trivial
              | omega
              | (simp; done)
              | (simp; omega)
              | (intro hx; have h9 := hmeq3 hx; omega)
              | (intro hx; have h9 := hmeq3 hx; simp; omega)
              | (intro hx; have h9 := hmeq3 hx; simp; done)
      · simp only [prettyVisW, prettyVisChunks, hhid, if_false, Bool.false_eq_true,
          runSink_nil, runSink_cons, wstring, h1]
        refine ⟨?_, ?_, ?_, ?_⟩ <;>
          first
            | trivial
            | omega
            | (intro _; omega)
            | (simp; done)
            | (simp; omega)
            | (intro _; simp; done)
            | (intro _; simp; omega)
termination_by (sizeOf cs, 1)

theorem prettyAllW_spec (ok : Nat → Bool) (env : EnvL) (cs : List TagNode) (indent : Nat)
    (s : WState) :
    SinkMatch (prettyAllW ok env cs indent s)
      (runSink ok s (prettyAllChunks env cs indent)) := by
  cases cs with
  | nil => simp [prettyAllW, prettyAllChunks, runSink, SinkMatch]
  | cons c cs =>
    by_cases h1 : ok s.calls
    · have hcm := treeWritePretty_spec ok env c indent ⟨s.calls + 1, s.out ++ ['\n']⟩
      rcases hc : treeWritePretty ok env c indent ⟨s.calls + 1, s.out ++ ['\n']⟩
        with ⟨s2, n2, b2⟩
      rw [hc] at hcm
      rcases hq2 : runSink ok ⟨s.calls + 1, s.out ++ ['\n']⟩ (prettyChunks env c indent)
        with ⟨qs2, qn2, qb2⟩
      rw [hq2] at hcm
      obtain ⟨hms, hmb, hmeq, hmle⟩ := hcm
      simp only at hms hmb hmeq hmle
      subst hms hmb
      cases b2 with
      | false =>
        simp only [prettyAllW, prettyAllChunks, Bool.false_eq_true, runSink_cons,
          runSink_append, wstring, h1, if_true, if_false, hc, hq2, List.cons_append,
          List.singleton_append, List.nil_append]
        refine ⟨?_, ?_, ?_, ?_⟩ <;>
          first
            | trivial
            | omega
            | (intro _; omega)
            | (simp; done)
            | (simp; omega)
            | (intro _; simp; done)
            | (intro _; simp; omega)
      | true =>
        have hn2 : n2 = qn2 := hmeq rfl
        subst hn2
        have hrm := prettyAllW_spec ok env cs indent s2
        rcases hr : prettyAllW ok env cs indent s2 with ⟨s3, n3, b3⟩
        rw [hr] at hrm
        rcases hq3 : runSink ok s2 (prettyAllChunks env cs indent) with ⟨qs3, qn3, qb3⟩
        rw [hq3] at hrm
        obtain ⟨hms3, hmb3, hmeq3, hmle3⟩ := hrm
        simp only at hms3 hmb3 hmeq3 hmle3
        subst hms3 hmb3
        simp only [prettyAllW, prettyAllChunks, runSink_nil, runSink_cons, runSink_append, wstring,
          h1, if_true, if_false, hc, hr, hq2, hq3, List.cons_append, List.singleton_append,
          List.nil_append]
        refine ⟨?_, ?_, ?_, ?_⟩ <;>
          first
            | trivial
            | omega
            | (simp; done)
            | (simp; omega)
            | (intro hx; have h9 := hmeq3 hx; omega)
            | (intro hx; have h9 := hmeq3 hx; simp; omega)
            | (intro hx; have h9 := hmeq3 hx; simp; done)
    · simp only [prettyAllW, prettyAllChunks, runSink_nil, runSink_cons, wstring, h1]
      refine ⟨?_, ?_, ?_, ?_⟩ <;>
        first
          | trivial
          | omega
          | (intro _; omega)
          | (simp; done)
          | (simp; omega)
          | (intro _; simp; done)
          | (intro _; simp; omega)
termination_by (sizeOf cs, 1)

theorem nullPrettyW_spec (ok : Nat → Bool) (env : EnvL) (cs : List TagNode) (s : WState) :
    SinkMatch (nullPrettyW ok env cs s) (runSink ok s (nullPrettyChunks env cs)) := by
  match cs with
  | [] => simp [nullPrettyW, nullPrettyChunks, runSink, SinkMatch]
  | [c] =>
    have hcm := treeWritePretty_spec ok env c 0 s
    rcases hc : treeWritePretty ok env c 0 s with ⟨s1, n1, b1⟩
    rw [hc] at hcm
    rcases hq1 : runSink ok s (prettyChunks env c 0) with ⟨qs1, qn1, qb1⟩
    rw [hq1] at hcm
    obtain ⟨hms, hmb, hmeq, hmle⟩ := hcm
    simp only at hms hmb hmeq hmle
    subst hms hmb
    cases b1 with
    | false =>
      simp only [nullPrettyW, nullPrettyChunks, hc, hq1, Bool.false_eq_true, if_false]
      refine ⟨?_, ?_, ?_, ?_⟩ <;>
        first
          | trivial
          | omega
          | (intro _; omega)
          | (simp; done)
          | (simp; omega)
          | (intro _; simp; done)
          | (intro _; simp; omega)
    | true =>
      have hn1 : n1 = qn1 := hmeq rfl
      subst hn1
      simp only [nullPrettyW, nullPrettyChunks, hc, hq1, if_true, if_false]
      refine ⟨?_, ?_, ?_, ?_⟩ <;>
        first
          | trivial
          | omega
          | (intro _; omega)
          | (simp; done)
          | (simp; omega)
          | (intro _; simp; done)
          | (intro _; simp; omega)
  | c :: c2 :: cs =>
    have hcm := treeWritePretty_spec ok env c 0 s
    rcases hc : treeWritePretty ok env c 0 s with ⟨s1, n1, b1⟩
    rw [hc] at hcm
    rcases hq1 : runSink ok s (prettyChunks env c 0) with ⟨qs1, qn1, qb1⟩
    rw [hq1] at hcm
    obtain ⟨hms, hmb, hmeq, hmle⟩ := hcm
    simp only at hms hmb hmeq hmle
    subst hms hmb
    cases b1 with
    | false =>
      simp only [nullPrettyW, nullPrettyChunks, hc, hq1, Bool.false_eq_true, if_false,
        runSink_append, List.cons_append, List.singleton_append, List.nil_append]
      refine ⟨?_, ?_, ?_, ?_⟩ <;>
        first
          | trivial
          | omega
          | (intro _; omega)
          | (simp; done)
          | (simp; omega)
          | (intro _; simp; done)
          | (intro _; simp; omega)
    | true =>
      have hn1 : n1 = qn1 := hmeq rfl
      subst hn1
      by_cases h2 : ok s1.calls
      · have hrm := nullPrettyW_spec ok env (c2 :: cs) ⟨s1.calls + 1, s1.out ++ ['\n']⟩
        rcases hr : nullPrettyW ok env (c2 :: cs) ⟨s1.calls + 1, s1.out ++ ['\n']⟩
          with ⟨s3, n3, b3⟩
        rw [hr] at hrm
        rcases hq3 : runSink ok ⟨s1.calls + 1, s1.out ++ ['\n']⟩
            (nullPrettyChunks env (c2 :: cs)) with ⟨qs3, qn3, qb3⟩
        rw [hq3] at hrm
        obtain ⟨hms3, hmb3, hmeq3, hmle3⟩ := hrm
        simp only at hms3 hmb3 hmeq3 hmle3
        subst hms3 hmb3
        simp only [nullPrettyW, nullPrettyChunks, hc, hr, hq1, hq3, runSink_nil, runSink_cons,
          runSink_append, wstring, h2, if_true, if_false, List.cons_append, List.singleton_append,
          List.nil_append]
        refine ⟨?_, ?_, ?_, ?_⟩ <;>
          first
            | trivial
            | omega
            | (simp; done)
            | (simp; omega)
            | (intro hx; have h9 := hmeq3 hx; omega)
            | (intro hx; have h9 := hmeq3 hx; simp; omega)
            | (intro hx; have h9 := hmeq3 hx; simp; done)
      · simp only [nullPrettyW, nullPrettyChunks, hc, hq1, runSink_nil, runSink_cons, runSink_append,
          wstring, h2, List.cons_append, List.singleton_append, List.nil_append]
        refine ⟨?_, ?_, ?_, ?_⟩ <;>
          first
            | trivial
            | omega
            | (intro _; omega)
            | (simp; done)
            | (simp; omega)
            | (intro _; simp; done)
            | (intro _; simp; omega)
termination_by (sizeOf cs, 1)

end

theorem eraseC_hidden (b : BaseData) : b.eraseC.hidden = b.hidden := rfl

theorem eraseC_tagType (b : BaseData) : b.eraseC.tagType = b.tagType := rfl

theorem openSortedChunks_eraseC (b : BaseData) (tagStr : String) :
    openSortedChunks b.eraseC tagStr = openSortedChunks b tagStr := rfl

theorem isHidden_eraseCache (t : TagNode) : (eraseCache t).isHidden = t.isHidden := by
  cases t <;> rfl

theorem eraseCacheList_length (cs : List TagNode) :
    (eraseCacheList cs).length = cs.length := by
  induction cs with
  | nil => rfl
  | cons c cs ih => simp [eraseCacheList, ih]

mutual

/-- Pretty rendering never reads the open-tag cache: the chunk sequence of
a node with erased caches equals that of the node itself. -/
theorem prettyChunks_eraseC (env : EnvL) (t : TagNode) (indent : Nat) :
    prettyChunks env (eraseCache t) indent = prettyChunks env t indent := by
  cases t with
  | textT text => rfl
  | textVar tv => rfl
  | single b => simp [eraseCache, prettyChunks, openSortedChunks_eraseC, eraseC_tagType]
  | elem b cs =>
    simp only [eraseCache, prettyChunks]
    exact basePrettyChunks_eraseC env b cs indent
  | comment b cs =>
    simp only [eraseCache, prettyChunks, eraseCacheList_length]
    rw [prettyAllChunks_eraseC]
  | nullW b cs =>
    simp only [eraseCache, prettyChunks]
    exact nullPrettyChunks_eraseC env cs
  | html b cs =>
    simp only [eraseCache, prettyChunks]
    rw [basePrettyChunks_eraseC]

theorem basePrettyChunks_eraseC (env : EnvL) (b : BaseData) (cs : List TagNode)
    (indent : Nat) :
    basePrettyChunks env b.eraseC (eraseCacheList cs) indent =
      basePrettyChunks env b cs indent := by
  simp only [basePrettyChunks, eraseC_hidden, eraseC_tagType, eraseCacheList_length,
    openSortedChunks_eraseC]
  rw [prettyVisChunks_eraseC]

theorem prettyVisChunks_eraseC (env : EnvL) (cs : List TagNode) (indent : Nat) :
    prettyVisChunks env (eraseCacheList cs) indent = prettyVisChunks env cs indent := by
  cases cs with
  | nil => rfl
  | cons c cs =>
    simp only [eraseCacheList, prettyVisChunks, isHidden_eraseCache]
    by_cases hh : c.isHidden
    · simp only [hh, if_true]
      exact prettyVisChunks_eraseC env cs indent
    · simp only [hh, if_false, Bool.false_eq_true]
      rw [prettyChunks_eraseC, prettyVisChunks_eraseC]

theorem prettyAllChunks_eraseC (env : EnvL) (cs : List TagNode) (indent : Nat) :
    prettyAllChunks env (eraseCacheList cs) indent = prettyAllChunks env cs indent := by
  cases cs with
  | nil => rfl
  | cons c cs =>
    simp only [eraseCacheList, prettyAllChunks]
    rw [prettyChunks_eraseC, prettyAllChunks_eraseC]

theorem nullPrettyChunks_eraseC (env : EnvL) (cs : List TagNode) :
    nullPrettyChunks env (eraseCacheList cs) = nullPrettyChunks env cs := by
  match cs with
  | [] => rfl
  | [c] =>
    simp only [eraseCacheList, nullPrettyChunks]
    rw [prettyChunks_eraseC]
  | c :: c2 :: cs =>
    simp only [eraseCacheList, nullPrettyChunks]
    rw [prettyChunks_eraseC]
    have h := nullPrettyChunks_eraseC env (c2 :: cs)
    simp only [eraseCacheList] at h
    rw [h]

end

/-- C9 (amended): for every tree, deterministic sink and initial sink
state, a compact `write` appends some byte sequence δ to the sink; on
success the reported count is exactly δ's length; on failure the reported
count never exceeds δ's length (the Go loops drop a failing child's
partial count, so it can be smaller); the traversal stops at the first
failing sink call; the tree is unchanged apart from its open-tag caches
and afterwards interacts with any sink, compactly or prettily, exactly as
the original tree (same final state and success flag, same count on
success).  The same count and abort contract holds for `writePretty`
(entry indent 0), which never mutates the tree at all. -/
theorem claim_C9_write_contract (ok : Nat → Bool) (env : EnvL) (t : TagNode) (s : WState) :
    (∃ δ : Str, (treeWrite ok env t s).2.1.out = s.out ++ δ ∧
      ((treeWrite ok env t s).2.2.2 = true → (treeWrite ok env t s).2.2.1 = δ.length) ∧
      (treeWrite ok env t s).2.2.1 ≤ δ.length) ∧
    ((treeWrite ok env t s).2.2.2 = false →
      s.calls < (treeWrite ok env t s).2.1.calls ∧
      ok ((treeWrite ok env t s).2.1.calls - 1) = false ∧
      (∀ i, s.calls ≤ i → i < (treeWrite ok env t s).2.1.calls - 1 → ok i = true)) ∧
    ((treeWrite ok env t s).2.2.2 = true →
      (∀ i, s.calls ≤ i → i < (treeWrite ok env t s).2.1.calls → ok i = true)) ∧
    eraseCache (treeWrite ok env t s).1 = eraseCache t ∧
    (∀ (ok2 : Nat → Bool) (s2 : WState),
      (treeWrite ok2 env (treeWrite ok env t s).1 s2).2.1 = (treeWrite ok2 env t s2).2.1 ∧
      (treeWrite ok2 env (treeWrite ok env t s).1 s2).2.2.2 =
        (treeWrite ok2 env t s2).2.2.2 ∧
      ((treeWrite ok2 env t s2).2.2.2 = true →
        (treeWrite ok2 env (treeWrite ok env t s).1 s2).2.2.1 =
          (treeWrite ok2 env t s2).2.2.1)) ∧
    (∀ (ok2 : Nat → Bool) (ind : Nat) (s2 : WState),
      (treeWritePretty ok2 env (treeWrite ok env t s).1 ind s2).1 =
        (treeWritePretty ok2 env t ind s2).1 ∧
      (treeWritePretty ok2 env (treeWrite ok env t s).1 ind s2).2.2 =
        (treeWritePretty ok2 env t ind s2).2.2 ∧
      ((treeWritePretty ok2 env t ind s2).2.2 = true →
        (treeWritePretty ok2 env (treeWrite ok env t s).1 ind s2).2.1 =
          (treeWritePretty ok2 env t ind s2).2.1)) ∧
    (∃ δp : Str, (treeWritePretty ok env t 0 s).1.out = s.out ++ δp ∧
      ((treeWritePretty ok env t 0 s).2.2 = true →
        (treeWritePretty ok env t 0 s).2.1 = δp.length) ∧
      (treeWritePretty ok env t 0 s).2.1 ≤ δp.length) ∧
    ((treeWritePretty ok env t 0 s).2.2 = false →
      s.calls < (treeWritePretty ok env t 0 s).1.calls ∧
      ok ((treeWritePretty ok env t 0 s).1.calls - 1) = false ∧
      (∀ i, s.calls ≤ i → i < (treeWritePretty ok env t 0 s).1.calls - 1 → ok i = true)) := by
  obtain ⟨⟨hms, hmb, hmeq, hmle⟩, herase, hchunks⟩ := treeWrite_spec ok env t s
  obtain ⟨δ, hout, hn⟩ := runSink_out ok (chunks env t) s
  obtain ⟨⟨pms, pmb, pmeq, pmle⟩⟩ :=
    And.intro (treeWritePretty_spec ok env t 0 s) True.intro
  obtain ⟨δp, pout, pn⟩ := runSink_out ok (prettyChunks env t 0) s
  have hpc : prettyChunks env (treeWrite ok env t s).1 0 = prettyChunks env t 0 := by
    calc prettyChunks env (treeWrite ok env t s).1 0
        = prettyChunks env (eraseCache (treeWrite ok env t s).1) 0 :=
          (prettyChunks_eraseC env _ 0).symm
      _ = prettyChunks env (eraseCache t) 0 := by rw [herase]
      _ = prettyChunks env t 0 := prettyChunks_eraseC env t 0
  refine ⟨⟨δ, ?_, ?_, ?_⟩, ?_, ?_, herase, ?_, ?_, ⟨δp, ?_, ?_, ?_⟩, ?_⟩
  · rw [hms, hout]
  · intro hsucc
    rw [hmeq (hmb ▸ hsucc), hn]
  · calc (treeWrite ok env t s).2.2.1 ≤ (runSink ok s (chunks env t)).2.1 := hmle
      _ = δ.length := hn
  · intro hfail
    have hqfail : (runSink ok s (chunks env t)).2.2 = false := hmb ▸ hfail
    obtain ⟨q1, q2, q3⟩ := runSink_failure ok (chunks env t) s hqfail
    rw [hms]
    exact ⟨q1, q2, q3⟩
  · intro hsucc
    have hqsucc : (runSink ok s (chunks env t)).2.2 = true := hmb ▸ hsucc
    obtain ⟨q1, q2⟩ := runSink_success ok (chunks env t) s hqsucc
    rw [hms, q1]
    exact q2
  · intro ok2 s2
    obtain ⟨⟨h2ms, h2mb, h2meq, h2mle⟩, _, _⟩ :=
      treeWrite_spec ok2 env (treeWrite ok env t s).1 s2
    obtain ⟨⟨h3ms, h3mb, h3meq, h3mle⟩, _, _⟩ := treeWrite_spec ok2 env t s2
    rw [hchunks] at h2ms h2mb h2meq
    refine ⟨by rw [h2ms, h3ms], by rw [h2mb, h3mb], ?_⟩
    intro hsucc
    rw [h2meq (h3mb ▸ hsucc), h3meq (h3mb ▸ hsucc)]
  · intro ok2 ind s2
    obtain ⟨h2ms, h2mb, h2meq, h2mle⟩ :=
      treeWritePretty_spec ok2 env (treeWrite ok env t s).1 ind s2
    obtain ⟨h3ms, h3mb, h3meq, h3mle⟩ := treeWritePretty_spec ok2 env t ind s2
    have hpci : prettyChunks env (treeWrite ok env t s).1 ind = prettyChunks env t ind := by
      calc prettyChunks env (treeWrite ok env t s).1 ind
          = prettyChunks env (eraseCache (treeWrite ok env t s).1) ind :=
            (prettyChunks_eraseC env _ ind).symm
        _ = prettyChunks env (eraseCache t) ind := by rw [herase]
        _ = prettyChunks env t ind := prettyChunks_eraseC env t ind
    rw [hpci] at h2ms h2mb h2meq
    refine ⟨by rw [h2ms, h3ms], by rw [h2mb, h3mb], ?_⟩
    intro hsucc
    rw [h2meq (h3mb ▸ hsucc), h3meq (h3mb ▸ hsucc)]
  · rw [pms, pout]
  · intro hsucc
    rw [pmeq (pmb ▸ hsucc), pn]
  · calc (treeWritePretty ok env t 0 s).2.1 ≤ (runSink ok s (prettyChunks env t 0)).2.1 :=
        pmle
      _ = δp.length := pn
  · intro hfail
    have hqfail : (runSink ok s (prettyChunks env t 0)).2.2 = false := pmb ▸ hfail
    obtain ⟨q1, q2, q3⟩ := runSink_failure ok (prettyChunks env t 0) s hqfail
    rw [pms]
    exact ⟨q1, q2, q3⟩

/-- Witness for C9: the success part applied to a concrete leaf render. -/
theorem claim_C9_write_contract_witness :
    ∀ i, (0 : Nat) ≤ i →
      i < (treeWrite okAll [] (TagNode.textT ['h', 'i']) ⟨0, []⟩).2.1.calls →
      okAll i = true :=
  (claim_C9_write_contract okAll [] (TagNode.textT ['h', 'i']) ⟨0, []⟩).2.2.1
    (by simp [treeWrite, wstring, okAll])

/-- The sink that rejects exactly its fourth call (call index 3). -/
def okFail3 : Nat → Bool := fun i => !(i == 3)

/-- Counterexample to C9 as stated: rendering
`<div><span>hello</span></div>` against a sink that fails on its fourth
call (the `</` of the span) delivers 16 bytes to the sink
(`<div><span>hello`) but reports only 5 — `baseTag.write` drops the
failing span's partial count (`return n, err` before `n += count`), so the
"byte count written so far" is not reported. -/
theorem claim_C9_counterexample :
    (treeWrite okFail3 []
        (TagNode.elem ⟨kTagTypeDiv, [], [], false, [], false⟩
          [TagNode.elem ⟨kTagTypeSpan, [], [], false, [], false⟩
            [TagNode.textT "hello".toList]])
        ⟨0, []⟩).2.2.2 = false ∧
    (treeWrite okFail3 []
        (TagNode.elem ⟨kTagTypeDiv, [], [], false, [], false⟩
          [TagNode.elem ⟨kTagTypeSpan, [], [], false, [], false⟩
            [TagNode.textT "hello".toList]])
        ⟨0, []⟩).2.1.out = "<div><span>hello".toList ∧
    (treeWrite okFail3 []
        (TagNode.elem ⟨kTagTypeDiv, [], [], false, [], false⟩
          [TagNode.elem ⟨kTagTypeSpan, [], [], false, [], false⟩
            [TagNode.textT "hello".toList]])
        ⟨0, []⟩).2.2.1 = 5 ∧
    (5 : Nat) ≠ ("<div><span>hello".toList).length := by
  refine ⟨?_, ?_, ?_, by decide⟩ <;>
    (simp [treeWrite, baseWrite, treeWriteList, refreshCache, renderCacheOpen,
      openTagLeadChunks, keyIdValueChunks, keyValueChunks, attrName, attrStringMap,
      tagName, tagTypeStringMap, wstring, okFail3]
     <;> try decide)

/-- C1: the code violates the claim for self-closing nodes:
`singleTag.write` never consults the hidden flag, so a hidden `<br />`
node still writes its whole tag and reports 6 bytes in compact mode (the
`Hide` doc says it hides the tag during rendering). -/
theorem claim_C1_hidden_single_writes :
    (TagNode.single ⟨kTagTypeBr, [], [], false, [], true⟩).isHidden = true ∧
    (treeWrite okAll [] (TagNode.single ⟨kTagTypeBr, [], [], false, [], true⟩)
      ⟨0, []⟩).2.1.out = "<br />".toList ∧
    (treeWrite okAll [] (TagNode.single ⟨kTagTypeBr, [], [], false, [], true⟩)
      ⟨0, []⟩).2.2.1 = 6 ∧
    (treeWrite okAll [] (TagNode.single ⟨kTagTypeBr, [], [], false, [], true⟩)
      ⟨0, []⟩).2.2.2 = true := by
  refine ⟨rfl, ?_, ?_, ?_⟩ <;>
    (simp [treeWrite, refreshCacheSingle, renderCacheOpenSingle, openTagLeadChunks,
      keyIdValueChunks, keyValueChunks, attrName, attrStringMap, tagName,
      tagTypeStringMap, wstring, okAll]
     <;> try decide)

/-! ### Attribute and class mutators (base_tag.go) -/

/-- `baseTag.setAttr`: clear the known attribute when the value is empty,
otherwise assign it; either way mark the cache dirty. -/
def BaseData.setAttr (b : BaseData) (keyId : Nat) (value : String) : BaseData :=
  if value.length == 0 then
    { b with attrs := alDel b.attrs keyId, isCacheClean := false }
  else
    { b with attrs := alSet b.attrs keyId value, isCacheClean := false }

/-- `baseTag.SetAttribute`: assign a custom attribute and mark the cache
dirty. -/
def BaseData.SetAttribute (b : BaseData) (key value : String) : BaseData :=
  { b with customAttrs := alSet b.customAttrs key value, isCacheClean := false }

/-- `baseTag.SetAttributes`: assign each pair, then mark the cache dirty. -/
def BaseData.SetAttributes (b : BaseData) (ps : List (String × String)) : BaseData :=
  { b with customAttrs := ps.foldl (fun m q => alSet m q.1 q.2) b.customAttrs,
           isCacheClean := false }

/-- `baseTag.RemoveAttribute`: delete a custom attribute and mark the cache
dirty. -/
def BaseData.RemoveAttribute (b : BaseData) (key : String) : BaseData :=
  { b with customAttrs := alDel b.customAttrs key, isCacheClean := false }

/-- `baseTag.RemoveAttributes`: delete each key, then mark the cache dirty. -/
def BaseData.RemoveAttributes (b : BaseData) (keys : List String) : BaseData :=
  { b with customAttrs := keys.foldl alDel b.customAttrs, isCacheClean := false }

/-- `baseTag.SetClasses`: empty list clears the class attribute, otherwise
the classes are joined with spaces; either way the cache is marked dirty. -/
def BaseData.SetClasses (b : BaseData) (classes : List String) : BaseData :=
  if classes.isEmpty then
    { b with attrs := alDel b.attrs kAttrClass, isCacheClean := false }
  else
    { b with attrs := alSet b.attrs kAttrClass (String.intercalate " " classes),
             isCacheClean := false }

/-- `baseTag.AddClasses`: an empty list is a no-op (early return, cache
untouched); otherwise the joined classes are appended to any existing class
string and the cache is marked dirty. -/
def BaseData.AddClasses (b : BaseData) (classes : List String) : BaseData :=
  if classes.isEmpty then b
  else if (alGet b.attrs kAttrClass).length > 0 then
    { b with
        attrs :=
          alSet b.attrs kAttrClass
            (alGet b.attrs kAttrClass ++ " " ++ String.intercalate " " classes),
        isCacheClean := false }
  else
    { b with
        attrs := alSet b.attrs kAttrClass (String.intercalate " " classes),
        isCacheClean := false }

/-- `InputTag.ResetOptions` (tag.go): deletes twelve known attributes and,
unlike every other attribute mutator, never touches `isCacheClean`. -/
def BaseData.ResetOptions (b : BaseData) : BaseData :=
  { b with attrs :=
      [kAttrAction, kAttrAlt, kAttrAutocomplete, kAttrChecked, kAttrDisabled,
        kAttrHeight, kAttrMaxlength, kAttrReadonly, kAttrSize, kAttrSrc,
        kAttrValue, kAttrWidth].foldl alDel b.attrs }

/-- An input tag `<input type="text" value="x" />` whose open-tag cache has
just been rendered (so the cache is clean). -/
def c5Input : BaseData :=
  refreshCacheSingle ⟨kTagTypeInput, [(kAttrType, "text"), (kAttrValue, "x")], [], false, [], false⟩

/-! ### Parent and children wiring (AddChild and addChild, base_tag.go) -/

/-- A tag as a heap object: indices into the heap stand for the Go
pointers, so the child and parent references are explicit. -/
structure TagRec where
  children : List Nat
  parent : Option Nat
  deriving DecidableEq

/-- The object heap. -/
abbrev Heap := List TagRec

def hGet (h : Heap) (i : Nat) : TagRec := h.getD i ⟨[], none⟩

def hSet (h : Heap) (i : Nat) (r : TagRec) : Heap := h.set i r

/-- The exported method `baseTag.AddChild`: appends `c` to the children of
`t` and returns `t`, without touching the parent field of `c`. -/
def AddChild (h : Heap) (t c : Nat) : Heap :=
  hSet h t { hGet h t with children := (hGet h t).children ++ [c] }

/-- The package-level helper `addChild` (base_tag.go): appends `c` to the
children of `t` and sets the parent of `c` to `t`. -/
def addChild (h : Heap) (t c : Nat) : Heap :=
  hSet (AddChild h t c) c { hGet (AddChild h t c) c with parent := some t }

/-! ### Up (base_tag.go, tag.go) -/

/-- `Tag.Parent()`. -/
def Parent (h : Heap) (i : Nat) : Option Nat := (hGet h i).parent

/-- The `for realCount > 1` loop of `Up`, one fuel unit per remaining
iteration: the body calls `.Parent()` on the current tag, which is a nil
pointer dereference (modelled as `none`) when the current tag is absent. -/
def upLoop (h : Heap) : Option Nat → Nat → Option (Option Nat)
  | cur, 0 => some cur
  | none, _ + 1 => none
  | some i, k + 1 => upLoop h (Parent h i) k

/-- `baseTag.Up` and `TextTag.Up` (the two have identical bodies): the
variadic count defaults to 1, the walk starts from the parent field and
iterates while the remaining count exceeds 1. -/
def realCountOf : List Int → Int
  | [] => 1
  | k :: _ => k

def Up (h : Heap) (t : Nat) (count : List Int) : Option (Option Nat) :=
  upLoop h (hGet h t).parent (realCountOf count - 1).toNat

/-! ### Copy (baseTag.Copy, singleTag.Copy, TextTag.Copy) -/

/-- A `baseTag` as a heap object: the two Go maps are references into
explicit stores, so aliasing between tags is observable. -/
structure RefTag where
  tagType : Nat
  attrsId : Nat
  customId : Nat
  children : List Nat
  isCacheClean : Bool
  cacheOpen : Str
  hidden : Bool
  deriving DecidableEq

/-- The store holding the contents of every live attribute map. -/
structure MapStore where
  intMaps : List (List (Nat × String))
  strMaps : List (List (String × String))
  deriving DecidableEq

/-- The rendering-relevant state of a heap tag: its base data with the two
map references dereferenced. -/
def viewB (ms : MapStore) (t : RefTag) : BaseData :=
  ⟨t.tagType, ms.intMaps.getD t.attrsId [], ms.strMaps.getD t.customId [],
    t.isCacheClean, t.cacheOpen, t.hidden⟩

/-- `baseTag.Copy` (base_tag.go): force the open-tag cache of the source
valid (the buffer render cannot fail), then return a copy whose maps are
fresh copies (`copyAttrs`, `copyCustomAttrs`), whose child list is empty
and which is not hidden; the cached open-tag string is shared. -/
def Copy (ms : MapStore) (t : RefTag) : MapStore × RefTag × RefTag :=
  let src : RefTag :=
    if t.isCacheClean then t
    else { t with cacheOpen := renderCacheOpen (viewB ms t) (tagName t.tagType),
                  isCacheClean := true }
  let cp : RefTag :=
    { tagType := src.tagType, attrsId := ms.intMaps.length,
      customId := ms.strMaps.length, children := [],
      isCacheClean := src.isCacheClean, cacheOpen := src.cacheOpen,
      hidden := false }
  (⟨ms.intMaps ++ [ms.intMaps.getD t.attrsId []],
    ms.strMaps ++ [ms.strMaps.getD t.customId []]⟩, src, cp)

/-- `singleTag.Copy` (tag.go): as `baseTag.Copy` but the forced cache uses
the self-closing renderer. -/
def CopySingle (ms : MapStore) (t : RefTag) : MapStore × RefTag × RefTag :=
  let src : RefTag :=
    if t.isCacheClean then t
    else { t with cacheOpen := renderCacheOpenSingle (viewB ms t) (tagName t.tagType),
                  isCacheClean := true }
  let cp : RefTag :=
    { tagType := src.tagType, attrsId := ms.intMaps.length,
      customId := ms.strMaps.length, children := [],
      isCacheClean := src.isCacheClean, cacheOpen := src.cacheOpen,
      hidden := false }
  (⟨ms.intMaps ++ [ms.intMaps.getD t.attrsId []],
    ms.strMaps ++ [ms.strMaps.getD t.customId []]⟩, src, cp)

/-- `setAttr` on a heap tag: the update lands in the map referenced by the
tag itself. -/
def storeSetAttr (ms : MapStore) (t : RefTag) (keyId : Nat) (v : String) :
    MapStore × RefTag :=
  (⟨ms.intMaps.set t.attrsId
      (if v.length == 0 then alDel (ms.intMaps.getD t.attrsId []) keyId
       else alSet (ms.intMaps.getD t.attrsId []) keyId v),
    ms.strMaps⟩,
   { t with isCacheClean := false })

/-- `SetAttribute` on a heap tag. -/
def storeSetCustom (ms : MapStore) (t : RefTag) (key v : String) :
    MapStore × RefTag :=
  (⟨ms.intMaps,
    ms.strMaps.set t.customId (alSet (ms.strMaps.getD t.customId []) key v)⟩,
   { t with isCacheClean := false })

/-- `TextTag.Copy` (tag.go): a fresh TextTag holding the same text; texts
live in a store so that tag identity is observable. -/
def TextCopy (ts : List Str) (i : Nat) : List Str × Nat :=
  (ts ++ [ts.getD i []], ts.length)

/-- `TextTag.SetText` on a heap text tag. -/
def TextSetText (ts : List Str) (i : Nat) (x : Str) : List Str := ts.set i x

/-- Witness data for the copy claim: one div tag with one known and one
custom attribute, maps stored at index 0. -/
def c7MS : MapStore := ⟨[[(kAttrId, "a")]], [[("data-x", "1")]]⟩

def c7T : RefTag := ⟨kTagTypeDiv, 0, 0, [], false, [], false⟩

/-! ### Determinism of the sorted attribute rendering (C6) -/

/-- In a list of pairs with pairwise distinct keys, a pair is determined by
its key. -/
theorem pair_eq_of_nodup_keys {A B : Type} (l : List (A × B))
    (hnd : (l.map Prod.fst).Nodup) :
    ∀ x ∈ l, ∀ y ∈ l, x.1 = y.1 → x = y := by
  induction l with
  | nil => intro x hx; cases hx
  | cons a t ih =>
    simp only [List.map_cons, List.nodup_cons] at hnd
    intro x hx y hy hxy
    rcases List.mem_cons.mp hx with hx1 | hx2 <;>
      rcases List.mem_cons.mp hy with hy1 | hy2
    · rw [hx1, hy1]
    · exfalso
      have hmem : y.1 ∈ t.map Prod.fst := List.mem_map_of_mem Prod.fst hy2
      rw [← hxy, hx1] at hmem
      exact hnd.1 hmem
    · exfalso
      have hmem : x.1 ∈ t.map Prod.fst := List.mem_map_of_mem Prod.fst hx2
      rw [hxy, hy1] at hmem
      exact hnd.1 hmem
    · exact ih hnd.2 x hx2 y hy2 hxy

/-- Go map iteration order is arbitrary, but a key lookup does not depend
on it: `find?` by key is invariant under permutation when the keys are
pairwise distinct (the Go map invariant). -/
theorem find_key_eq_of_perm {A B : Type} [BEq A] [LawfulBEq A]
    {l l2 : List (A × B)} (hp : l.Perm l2)
    (hnd : (l.map Prod.fst).Nodup) (k : A) :
    l.find? (fun p => p.1 == k) = l2.find? (fun p => p.1 == k) := by
  cases hfl : l.find? (fun p => p.1 == k) with
  | none =>
    have h1 := List.find?_eq_none.mp hfl
    symm
    apply List.find?_eq_none.mpr
    intro x hx
    exact h1 x (hp.symm.subset hx)
  | some x =>
    have hxl : x ∈ l := List.mem_of_find?_eq_some hfl
    have hxk : (x.1 == k) = true := by
      have h := List.find?_some hfl
      simpa using h
    have hxl2 : x ∈ l2 := hp.subset hxl
    cases hfl2 : l2.find? (fun p => p.1 == k) with
    | none => exact absurd hxk (by simpa using List.find?_eq_none.mp hfl2 x hxl2)
    | some y =>
      have hyl2 : y ∈ l2 := List.mem_of_find?_eq_some hfl2
      have hyk : (y.1 == k) = true := by
        have h := List.find?_some hfl2
        simpa using h
      have hyl : y ∈ l := hp.symm.subset hyl2
      have hkey : x.1 = y.1 := by
        have h1 := eq_of_beq hxk
        have h2 := eq_of_beq hyk
        rw [h1, h2]
      rw [pair_eq_of_nodup_keys l hnd x hxl y hyl hkey]

/-- `m[k]` does not depend on the iteration order. -/
theorem alGet_eq_of_perm {A : Type} [BEq A] [LawfulBEq A]
    {l l2 : List (A × String)} (hp : l.Perm l2)
    (hnd : (l.map Prod.fst).Nodup) (k : A) :
    alGet l k = alGet l2 k := by
  unfold alGet
  rw [find_key_eq_of_perm hp hnd k]

/-- The merged name-keyed lookup does not depend on either iteration
order, given distinct ordinals, distinct custom names and distinct known
attribute names. -/
theorem mergedGet_eq_of_perm (b b2 : BaseData)
    (hty : b.tagType = b2.tagType)
    (hpa : b.attrs.Perm b2.attrs) (hpc : b.customAttrs.Perm b2.customAttrs)
    (hkc : (b.customAttrs.map Prod.fst).Nodup)
    (hna : (b.attrs.map (fun p => attrName p.1)).Nodup) (k : String) :
    mergedGet b k = mergedGet b2 k := by
  unfold mergedGet
  rw [← find_key_eq_of_perm hpc hkc k]
  cases b.customAttrs.find? (fun p => p.1 == k) with
  | some p => rfl
  | none =>
    have hmap : (b.attrs.map (fun p => (attrName p.1, p.2))).Perm
        (b2.attrs.map (fun p => (attrName p.1, p.2))) := hpa.map _
    have hmnd : ((b.attrs.map (fun p => (attrName p.1, p.2))).map Prod.fst).Nodup := by
      rw [List.map_map]
      exact hna
    rw [find_key_eq_of_perm hmap hmnd k]

/-- The pair list emitted by `writeOpenTagLeadSorted` does not depend on
the iteration order of either map. -/
theorem sortedPairs_eq_of_perm (b b2 : BaseData)
    (hty : b.tagType = b2.tagType)
    (hpa : b.attrs.Perm b2.attrs) (hpc : b.customAttrs.Perm b2.customAttrs)
    (hka : (b.attrs.map Prod.fst).Nodup)
    (hkc : (b.customAttrs.map Prod.fst).Nodup)
    (hna : (b.attrs.map (fun p => attrName p.1)).Nodup) :
    sortedPairs b = sortedPairs b2 := by
  unfold sortedPairs
  by_cases hc : b.customAttrs.isEmpty
  · have hc2 : b2.customAttrs.isEmpty := by
      rw [List.isEmpty_iff] at hc ⊢
      exact (hc ▸ hpc).symm.eq_nil
    rw [if_pos hc, if_pos hc2]
    have hsort : List.insertionSort (· ≤ ·) (b.attrs.map Prod.fst)
        = List.insertionSort (· ≤ ·) (b2.attrs.map Prod.fst) := by
      refine List.eq_of_perm_of_sorted ?_
        (List.sorted_insertionSort _ _) (List.sorted_insertionSort _ _)
      exact (List.perm_insertionSort _ _).trans
        ((hpa.map Prod.fst).trans (List.perm_insertionSort _ _).symm)
    rw [← hsort]
    apply List.map_congr_left
    intro k _
    rw [alGet_eq_of_perm hpa hka k]
  · have hc2 : ¬b2.customAttrs.isEmpty := by
      rw [List.isEmpty_iff] at hc ⊢
      intro hnil
      exact hc (hnil ▸ hpc.symm).symm.eq_nil
    rw [if_neg hc, if_neg hc2]
    have hkeys : mergedKeys b = mergedKeys b2 := by
      unfold mergedKeys
      refine List.eq_of_perm_of_sorted ?_
        (List.sorted_insertionSort _ _) (List.sorted_insertionSort _ _)
      exact (List.perm_insertionSort _ _).trans
        (((hpa.map _).append (hpc.map _)).trans (List.perm_insertionSort _ _).symm)
    rw [← hkeys]
    apply List.map_congr_left
    intro k _
    rw [mergedGet_eq_of_perm b b2 hty hpa hpc hkc hna k]

/-- Writing into a heap cell and reading it back. -/
theorem hGet_hSet_self (h : Heap) (i : Nat) (r : TagRec) (hi : i < h.length) :
    hGet (hSet h i r) i = r := by
  simp [hGet, hSet, List.getD_eq_getElem?_getD, List.getElem?_set_self hi]

/-- Writing into a heap cell leaves the other cells unchanged. -/
theorem hGet_hSet_ne (h : Heap) (i j : Nat) (r : TagRec) (hij : i ≠ j) :
    hGet (hSet h i r) j = hGet h j := by
  simp [hGet, hSet, List.getD_eq_getElem?_getD, List.getElem?_set_ne hij]

theorem hSet_length (h : Heap) (i : Nat) (r : TagRec) :
    (hSet h i r).length = h.length := by simp [hSet]

/-- C4 (amended): the package-level attach helper `addChild` (used by every
tag-creating builder method) appends the child to the parent node and sets
the child parent reference to that node, so the parent/children wiring
invariant holds after it; the exported method `baseTag.AddChild` only
appends and leaves the child parent reference unchanged. -/
theorem claim_C4_add_child_sets_parent (h : Heap) (p c : Nat)
    (hp : p < h.length) (hc : c < h.length) (hne : p ≠ c) :
    (hGet (addChild h p c) c).parent = some p ∧
    (hGet (addChild h p c) p).children = (hGet h p).children ++ [c] ∧
    (hGet (AddChild h p c) p).children = (hGet h p).children ++ [c] ∧
    (hGet (AddChild h p c) c).parent = (hGet h c).parent := by
  have hc1 : c < (AddChild h p c).length := by
    unfold AddChild
    rw [hSet_length]
    exact hc
  refine ⟨?_, ?_, ?_, ?_⟩
  · unfold addChild
    rw [hGet_hSet_self _ c _ hc1]
  · unfold addChild
    rw [hGet_hSet_ne _ c p _ (fun hq => hne hq.symm)]
    unfold AddChild
    rw [hGet_hSet_self _ p _ hp]
  · unfold AddChild
    rw [hGet_hSet_self _ p _ hp]
  · unfold AddChild
    rw [hGet_hSet_ne _ p c _ hne]

/-- Witness for C4 at a concrete two-node heap. -/
theorem claim_C4_add_child_sets_parent_witness :
    (hGet (addChild [⟨[], none⟩, ⟨[], none⟩] 0 1) 1).parent = some 0 ∧
    (hGet (addChild [⟨[], none⟩, ⟨[], none⟩] 0 1) 0).children
      = (hGet [⟨[], none⟩, ⟨[], none⟩] 0).children ++ [1] ∧
    (hGet (AddChild [⟨[], none⟩, ⟨[], none⟩] 0 1) 0).children
      = (hGet [⟨[], none⟩, ⟨[], none⟩] 0).children ++ [1] ∧
    (hGet (AddChild [⟨[], none⟩, ⟨[], none⟩] 0 1) 1).parent
      = (hGet [⟨[], none⟩, ⟨[], none⟩] 1).parent :=
  claim_C4_add_child_sets_parent [⟨[], none⟩, ⟨[], none⟩] 0 1
    (by decide) (by decide) (by decide)

/-- Counterexample to C4 as stated: after `AddChild` the child sits in the
children of node 0 but its parent reference is still absent. -/
theorem claim_C4_counterexample :
    (hGet (AddChild [⟨[], none⟩, ⟨[], none⟩] 0 1) 0).children = [1] ∧
    (hGet (AddChild [⟨[], none⟩, ⟨[], none⟩] 0 1) 1).parent = none ∧
    (none : Option Nat) ≠ some 0 := by decide

/-- C5: every attribute or class mutator marks the open-tag cache dirty,
except `InputTag.ResetOptions`, which deletes twelve known attributes and
leaves `isCacheClean` untouched: on an input tag with a freshly rendered
cache, the reset removes the value attribute yet the compact render still
emits the stale cached open tag, unchanged. -/
theorem claim_C5_mutators_invalidate_cache :
    (∀ (b : BaseData) (k : Nat) (v : String), (b.setAttr k v).isCacheClean = false) ∧
    (∀ (b : BaseData) (k v : String), (b.SetAttribute k v).isCacheClean = false) ∧
    (∀ (b : BaseData) (ps : List (String × String)),
      (b.SetAttributes ps).isCacheClean = false) ∧
    (∀ (b : BaseData) (k : String), (b.RemoveAttribute k).isCacheClean = false) ∧
    (∀ (b : BaseData) (ks : List String), (b.RemoveAttributes ks).isCacheClean = false) ∧
    (∀ (b : BaseData) (cs : List String), (b.SetClasses cs).isCacheClean = false) ∧
    (∀ (b : BaseData) (k : String) (ks : List String),
      (b.AddClasses (k :: ks)).isCacheClean = false) ∧
    c5Input.isCacheClean = true ∧
    (BaseData.ResetOptions c5Input).isCacheClean = true ∧
    alGet c5Input.attrs kAttrValue = "x" ∧
    alGet (BaseData.ResetOptions c5Input).attrs kAttrValue = "" ∧
    chunks [] (TagNode.single (BaseData.ResetOptions c5Input))
      = chunks [] (TagNode.single c5Input) := by
  refine ⟨?_, ?_, ?_, ?_, ?_, ?_, ?_, ?_, ?_, ?_, ?_, ?_⟩
  · intro b k v
    unfold BaseData.setAttr
    split <;> rfl
  · intro b k v; rfl
  · intro b ps; rfl
  · intro b k; rfl
  · intro b ks; rfl
  · intro b cs
    unfold BaseData.SetClasses
    split <;> rfl
  · intro b k ks
    unfold BaseData.AddClasses
    rw [if_neg (by simp)]
    split <;> rfl
  · decide
  · decide
  · decide
  · decide
  · simp only [chunks]
    decide

/-- C6: the sorted open-tag rendering used by pretty printing does not
depend on the iteration order of the two Go maps (given the map invariant
that keys are distinct, and the distinctness of the known attribute
names): the emitted pair list, the exact writer interaction and the
pretty chunk stream are all invariant under permutation of either map. -/
theorem claim_C6_sorted_deterministic (ty : Nat)
    (a a2 : List (Nat × String)) (c c2 : List (String × String))
    (icc icc2 : Bool) (co co2 : Str) (hid : Bool)
    (hpa : a.Perm a2) (hpc : c.Perm c2)
    (hka : (a.map Prod.fst).Nodup) (hkc : (c.map Prod.fst).Nodup)
    (hna : (a.map (fun p => attrName p.1)).Nodup) :
    (∀ tagStr : String,
      openSortedChunks ⟨ty, a, c, icc, co, hid⟩ tagStr
        = openSortedChunks ⟨ty, a2, c2, icc2, co2, hid⟩ tagStr) ∧
    (∀ (ok : Nat → Bool) (tagStr : String) (s : WState),
      writeOpenSortedW ok ⟨ty, a, c, icc, co, hid⟩ tagStr s
        = writeOpenSortedW ok ⟨ty, a2, c2, icc2, co2, hid⟩ tagStr s) ∧
    (∀ (env : EnvL) (cs : List TagNode) (ind : Nat),
      prettyChunks env (TagNode.elem ⟨ty, a, c, icc, co, hid⟩ cs) ind
        = prettyChunks env (TagNode.elem ⟨ty, a2, c2, icc2, co2, hid⟩ cs) ind) := by
  have hsp : sortedPairs ⟨ty, a, c, icc, co, hid⟩
      = sortedPairs ⟨ty, a2, c2, icc2, co2, hid⟩ :=
    sortedPairs_eq_of_perm _ _ rfl hpa hpc hka hkc hna
  have hoc : ∀ tagStr : String,
      openSortedChunks ⟨ty, a, c, icc, co, hid⟩ tagStr
        = openSortedChunks ⟨ty, a2, c2, icc2, co2, hid⟩ tagStr := by
    intro tagStr
    unfold openSortedChunks
    rw [hsp]
  refine ⟨hoc, ?_, ?_⟩
  · intro ok tagStr s
    unfold writeOpenSortedW
    rw [hsp]
  · intro env cs ind
    simp only [prettyChunks, basePrettyChunks]
    rw [hoc]

/-- Witness for C6: the two iteration orders of `{id: x, class: y}` with a
custom attribute give the same sorted chunk stream. -/
theorem claim_C6_sorted_deterministic_witness :
    openSortedChunks
        ⟨kTagTypeDiv, [(kAttrId, "x"), (kAttrClass, "y")], [("data-a", "1")],
          false, [], false⟩ "div"
      = openSortedChunks
        ⟨kTagTypeDiv, [(kAttrClass, "y"), (kAttrId, "x")], [("data-a", "1")],
          true, ['z'], false⟩ "div" :=
  (claim_C6_sorted_deterministic kTagTypeDiv
    [(kAttrId, "x"), (kAttrClass, "y")] [(kAttrClass, "y"), (kAttrId, "x")]
    [("data-a", "1")] [("data-a", "1")] false true [] ['z'] false
    (by decide) (by decide) (by decide) (by decide) (by decide)).1 "div"

/-- C8: `Up` with count at most 1 (or no argument) walks exactly one
parent link; but when the walk passes beyond the root the code dereferences
an absent tag (`nil.Parent()`), a panic, instead of returning the promised
absence: on a parentless root, `Up(2)` panics (`none`) rather than
returning nil (`some none`). -/
theorem claim_C8_up_walk :
    (∀ (h : Heap) (t : Nat) (n : Int), n ≤ 1 → Up h t [n] = Up h t []) ∧
    (∀ (h : Heap) (t : Nat), Up h t [] = some (hGet h t).parent) ∧
    Up [⟨[], none⟩] 0 [2] = none ∧
    (none : Option (Option Nat)) ≠ some none := by
  refine ⟨?_, ?_, by decide, by decide⟩
  · intro h t n hn
    have h1 : (n - 1).toNat = ((1 : Int) - 1).toNat := by omega
    simp only [Up, realCountOf]
    rw [h1]
  · intro h t
    simp only [Up, realCountOf]
    rw [show ((1 : Int) - 1).toNat = 0 from rfl]
    simp [upLoop]

/-- Witness for C8: a zero count behaves as the default count 1. -/
theorem claim_C8_up_walk_witness : Up [] 0 [0] = Up [] 0 [] :=
  claim_C8_up_walk.1 [] 0 0 (by decide)

/-- C7: `baseTag.Copy` forces the source open-tag cache valid and returns
a copy with fresh maps holding the same contents, an empty child list and
visible state, sharing the cached open-tag string; the effect on the
source is exactly the lazy cache refresh, so the source render is
unchanged; and mutating the copy afterwards (a known or custom attribute,
or a copied text leaf) never changes what the source renders.
`singleTag.Copy` satisfies the same contract, its forced cache being the
self-closing render, so the source single-node render is unchanged. -/
theorem claim_C7_copy_semantics (ms : MapStore) (t : RefTag)
    (hta : t.attrsId < ms.intMaps.length) (htc : t.customId < ms.strMaps.length) :
    (Copy ms t).2.2.children = [] ∧
    (Copy ms t).2.2.hidden = false ∧
    (viewB (Copy ms t).1 (Copy ms t).2.2).attrs = (viewB ms t).attrs ∧
    (viewB (Copy ms t).1 (Copy ms t).2.2).customAttrs = (viewB ms t).customAttrs ∧
    (Copy ms t).2.1.isCacheClean = true ∧
    (Copy ms t).2.2.cacheOpen = (Copy ms t).2.1.cacheOpen ∧
    (Copy ms t).2.2.attrsId ≠ (Copy ms t).2.1.attrsId ∧
    (Copy ms t).2.2.customId ≠ (Copy ms t).2.1.customId ∧
    viewB (Copy ms t).1 (Copy ms t).2.1 = refreshCache (viewB ms t) ∧
    (∀ (env : EnvL) (cs : List TagNode),
      baseChunks env (viewB (Copy ms t).1 (Copy ms t).2.1) cs
        = baseChunks env (viewB ms t) cs) ∧
    (∀ (k : Nat) (v : String),
      viewB (storeSetAttr (Copy ms t).1 (Copy ms t).2.2 k v).1 (Copy ms t).2.1
        = viewB (Copy ms t).1 (Copy ms t).2.1) ∧
    (∀ (k v : String),
      viewB (storeSetCustom (Copy ms t).1 (Copy ms t).2.2 k v).1 (Copy ms t).2.1
        = viewB (Copy ms t).1 (Copy ms t).2.1) ∧
    (∀ (pre post : List Str) (y x : Str),
      (TextSetText (TextCopy (pre ++ y :: post) pre.length).1
          (TextCopy (pre ++ y :: post) pre.length).2 x).getD pre.length []
        = y ∧ (pre ++ y :: post).getD pre.length [] = y) ∧
    (CopySingle ms t).2.2.children = [] ∧
    (CopySingle ms t).2.2.hidden = false ∧
    (viewB (CopySingle ms t).1 (CopySingle ms t).2.2).attrs = (viewB ms t).attrs ∧
    (viewB (CopySingle ms t).1 (CopySingle ms t).2.2).customAttrs
      = (viewB ms t).customAttrs ∧
    (CopySingle ms t).2.1.isCacheClean = true ∧
    (CopySingle ms t).2.2.cacheOpen = (CopySingle ms t).2.1.cacheOpen ∧
    (CopySingle ms t).2.2.attrsId ≠ (CopySingle ms t).2.1.attrsId ∧
    (CopySingle ms t).2.2.customId ≠ (CopySingle ms t).2.1.customId ∧
    viewB (CopySingle ms t).1 (CopySingle ms t).2.1 = refreshCacheSingle (viewB ms t) ∧
    (∀ env : EnvL,
      chunks env (TagNode.single (viewB (CopySingle ms t).1 (CopySingle ms t).2.1))
        = chunks env (TagNode.single (viewB ms t))) ∧
    (∀ (k : Nat) (v : String),
      viewB (storeSetAttr (CopySingle ms t).1 (CopySingle ms t).2.2 k v).1
          (CopySingle ms t).2.1
        = viewB (CopySingle ms t).1 (CopySingle ms t).2.1) ∧
    (∀ (k v : String),
      viewB (storeSetCustom (CopySingle ms t).1 (CopySingle ms t).2.2 k v).1
          (CopySingle ms t).2.1
        = viewB (CopySingle ms t).1 (CopySingle ms t).2.1) := by
  have e1 : (Copy ms t).1.intMaps = ms.intMaps ++ [ms.intMaps.getD t.attrsId []] := by
    simp [Copy]
  have e1b : (Copy ms t).1.strMaps = ms.strMaps ++ [ms.strMaps.getD t.customId []] := by
    simp [Copy]
  have e2a : (Copy ms t).2.2.attrsId = ms.intMaps.length := by
    simp [Copy]
  have e2b : (Copy ms t).2.2.customId = ms.strMaps.length := by
    simp [Copy]
  have e3a : (Copy ms t).2.1.attrsId = t.attrsId := by
    by_cases hcl : t.isCacheClean <;> simp [Copy, hcl]
  have e3b : (Copy ms t).2.1.customId = t.customId := by
    by_cases hcl : t.isCacheClean <;> simp [Copy, hcl]
  have hne1 : (Copy ms t).2.2.attrsId ≠ (Copy ms t).2.1.attrsId := by
    rw [e2a, e3a]
    omega
  have hne2 : (Copy ms t).2.2.customId ≠ (Copy ms t).2.1.customId := by
    rw [e2b, e3b]
    omega
  have g1 : (Copy ms t).1.intMaps.getD (ms.intMaps.length) []
      = ms.intMaps.getD t.attrsId [] := by
    rw [e1, List.getD_eq_getElem?_getD, List.getElem?_concat_length]
    rfl
  have g1b : (Copy ms t).1.strMaps.getD (ms.strMaps.length) []
      = ms.strMaps.getD t.customId [] := by
    rw [e1b, List.getD_eq_getElem?_getD, List.getElem?_concat_length]
    rfl
  have g2 : (Copy ms t).1.intMaps.getD t.attrsId [] = ms.intMaps.getD t.attrsId [] := by
    rw [e1]
    exact List.getD_append _ _ _ _ hta
  have g2b : (Copy ms t).1.strMaps.getD t.customId [] = ms.strMaps.getD t.customId [] := by
    rw [e1b]
    exact List.getD_append _ _ _ _ htc
  have h9 : viewB (Copy ms t).1 (Copy ms t).2.1 = refreshCache (viewB ms t) := by
    by_cases hcl : t.isCacheClean
    · have hsrc : (Copy ms t).2.1 = t := by simp [Copy, hcl]
      rw [hsrc]
      unfold refreshCache viewB
      rw [if_pos hcl]
      rw [e1, e1b, List.getD_append _ _ _ _ hta, List.getD_append _ _ _ _ htc]
    · have hsrc : (Copy ms t).2.1
          = { t with cacheOpen := renderCacheOpen (viewB ms t) (tagName t.tagType),
                     isCacheClean := true } := by
        simp [Copy, hcl]
      rw [hsrc]
      unfold refreshCache viewB
      rw [if_neg (by simpa using hcl)]
      rw [e1, e1b, List.getD_append _ _ _ _ hta, List.getD_append _ _ _ _ htc]
  have se1 : (CopySingle ms t).1.intMaps
      = ms.intMaps ++ [ms.intMaps.getD t.attrsId []] := by
    simp [CopySingle]
  have se1b : (CopySingle ms t).1.strMaps
      = ms.strMaps ++ [ms.strMaps.getD t.customId []] := by
    simp [CopySingle]
  have se2a : (CopySingle ms t).2.2.attrsId = ms.intMaps.length := by
    simp [CopySingle]
  have se2b : (CopySingle ms t).2.2.customId = ms.strMaps.length := by
    simp [CopySingle]
  have se3a : (CopySingle ms t).2.1.attrsId = t.attrsId := by
    by_cases hcl : t.isCacheClean <;> simp [CopySingle, hcl]
  have se3b : (CopySingle ms t).2.1.customId = t.customId := by
    by_cases hcl : t.isCacheClean <;> simp [CopySingle, hcl]
  have sne1 : (CopySingle ms t).2.2.attrsId ≠ (CopySingle ms t).2.1.attrsId := by
    rw [se2a, se3a]
    omega
  have sne2 : (CopySingle ms t).2.2.customId ≠ (CopySingle ms t).2.1.customId := by
    rw [se2b, se3b]
    omega
  have sg1 : (CopySingle ms t).1.intMaps.getD (ms.intMaps.length) []
      = ms.intMaps.getD t.attrsId [] := by
    rw [se1, List.getD_eq_getElem?_getD, List.getElem?_concat_length]
    rfl
  have sg1b : (CopySingle ms t).1.strMaps.getD (ms.strMaps.length) []
      = ms.strMaps.getD t.customId [] := by
    rw [se1b, List.getD_eq_getElem?_getD, List.getElem?_concat_length]
    rfl
  have sh9 : viewB (CopySingle ms t).1 (CopySingle ms t).2.1
      = refreshCacheSingle (viewB ms t) := by
    by_cases hcl : t.isCacheClean
    · have hsrc : (CopySingle ms t).2.1 = t := by simp [CopySingle, hcl]
      rw [hsrc]
      unfold refreshCacheSingle viewB
      rw [if_pos hcl]
      rw [se1, se1b, List.getD_append _ _ _ _ hta, List.getD_append _ _ _ _ htc]
    · have hsrc : (CopySingle ms t).2.1
          = { t with cacheOpen := renderCacheOpenSingle (viewB ms t) (tagName t.tagType),
                     isCacheClean := true } := by
        simp [CopySingle, hcl]
      rw [hsrc]
      unfold refreshCacheSingle viewB
      rw [if_neg (by simpa using hcl)]
      rw [se1, se1b, List.getD_append _ _ _ _ hta, List.getD_append _ _ _ _ htc]
  refine ⟨by simp [Copy], by simp [Copy], ?_, ?_, ?_, ?_, hne1, hne2, h9, ?_, ?_, ?_, ?_,
    by simp [CopySingle], by simp [CopySingle], ?_, ?_, ?_, ?_, sne1, sne2, sh9,
    ?_, ?_, ?_⟩
  · show (Copy ms t).1.intMaps.getD ((Copy ms t).2.2.attrsId) [] = ms.intMaps.getD t.attrsId []
    rw [e2a, g1]
  · show (Copy ms t).1.strMaps.getD ((Copy ms t).2.2.customId) [] = ms.strMaps.getD t.customId []
    rw [e2b, g1b]
  · by_cases hcl : t.isCacheClean <;> simp [Copy, hcl]
  · by_cases hcl : t.isCacheClean <;> simp [Copy, hcl]
  · intro env cs
    rw [h9, baseChunks_refresh]
  · intro k v
    have hm1 : ((storeSetAttr (Copy ms t).1 (Copy ms t).2.2 k v).1).intMaps.getD
        ((Copy ms t).2.1.attrsId) []
        = (Copy ms t).1.intMaps.getD ((Copy ms t).2.1.attrsId) [] := by
      simp only [storeSetAttr]
      rw [List.getD_eq_getElem?_getD, List.getElem?_set_ne hne1,
        ← List.getD_eq_getElem?_getD]
    have hm2 : ((storeSetAttr (Copy ms t).1 (Copy ms t).2.2 k v).1).strMaps
        = (Copy ms t).1.strMaps := by
      simp [storeSetAttr]
    unfold viewB
    rw [hm1, hm2]
  · intro k v
    have hm1 : ((storeSetCustom (Copy ms t).1 (Copy ms t).2.2 k v).1).strMaps.getD
        ((Copy ms t).2.1.customId) []
        = (Copy ms t).1.strMaps.getD ((Copy ms t).2.1.customId) [] := by
      simp only [storeSetCustom]
      rw [List.getD_eq_getElem?_getD, List.getElem?_set_ne hne2,
        ← List.getD_eq_getElem?_getD]
    have hm2 : ((storeSetCustom (Copy ms t).1 (Copy ms t).2.2 k v).1).intMaps
        = (Copy ms t).1.intMaps := by
      simp [storeSetCustom]
    unfold viewB
    rw [hm1, hm2]
  · intro pre post y x
    have hlen : pre.length < (pre ++ y :: post).length := by
      simp
    have hgy : (pre ++ y :: post).getD pre.length [] = y := by
      rw [List.getD_eq_getElem?_getD, List.getElem?_append_right (Nat.le_refl _)]
      simp
    refine ⟨?_, hgy⟩
    unfold TextSetText TextCopy
    rw [List.getD_eq_getElem?_getD,
      List.getElem?_set_ne
        (by simp only [List.length_append, List.length_cons]; omega),
      List.getElem?_append_left (by simp only [List.length_append, List.length_cons]; omega)]
    rw [List.getD_eq_getElem?_getD] at hgy
    exact hgy
  · show (CopySingle ms t).1.intMaps.getD ((CopySingle ms t).2.2.attrsId) []
      = ms.intMaps.getD t.attrsId []
    rw [se2a, sg1]
  · show (CopySingle ms t).1.strMaps.getD ((CopySingle ms t).2.2.customId) []
      = ms.strMaps.getD t.customId []
    rw [se2b, sg1b]
  · by_cases hcl : t.isCacheClean <;> simp [CopySingle, hcl]
  · by_cases hcl : t.isCacheClean <;> simp [CopySingle, hcl]
  · intro env
    simp only [chunks]
    rw [sh9, refreshCacheSingle_idem]
  · intro k v
    have hm1 : ((storeSetAttr (CopySingle ms t).1 (CopySingle ms t).2.2 k v).1).intMaps.getD
        ((CopySingle ms t).2.1.attrsId) []
        = (CopySingle ms t).1.intMaps.getD ((CopySingle ms t).2.1.attrsId) [] := by
      simp only [storeSetAttr]
      rw [List.getD_eq_getElem?_getD, List.getElem?_set_ne sne1,
        ← List.getD_eq_getElem?_getD]
    have hm2 : ((storeSetAttr (CopySingle ms t).1 (CopySingle ms t).2.2 k v).1).strMaps
        = (CopySingle ms t).1.strMaps := by
      simp [storeSetAttr]
    unfold viewB
    rw [hm1, hm2]
  · intro k v
    have hm1 : ((storeSetCustom (CopySingle ms t).1 (CopySingle ms t).2.2 k v).1).strMaps.getD
        ((CopySingle ms t).2.1.customId) []
        = (CopySingle ms t).1.strMaps.getD ((CopySingle ms t).2.1.customId) [] := by
      simp only [storeSetCustom]
      rw [List.getD_eq_getElem?_getD, List.getElem?_set_ne sne2,
        ← List.getD_eq_getElem?_getD]
    have hm2 : ((storeSetCustom (CopySingle ms t).1 (CopySingle ms t).2.2 k v).1).intMaps
        = (CopySingle ms t).1.intMaps := by
      simp [storeSetCustom]
    unfold viewB
    rw [hm1, hm2]

/-- Witness for C7: copying a div with one known and one custom attribute
acts on the source exactly as a cache refresh. -/
theorem claim_C7_copy_semantics_witness :
    viewB (Copy c7MS c7T).1 (Copy c7MS c7T).2.1 = refreshCache (viewB c7MS c7T) :=
  (claim_C7_copy_semantics c7MS c7T (by decide) (by decide)).2.2.2.2.2.2.2.2.1

end Htmlgen
